import Mathlib

/-!
Verification of the asynchronous sinc resampler (rubato, `src/lib.rs`).

Shallow embedding conventions:
* Machine floats (`f32`/`f64`) are modelled by exact rationals `ℚ`; every
  arithmetic operation of the source maps to the corresponding exact `ℚ`
  operation.  `as usize` casts of nonnegative floats are `Int.toNat ∘ Int.floor`
  (Rust float-to-int casts truncate toward zero and saturate below at 0, which
  `Int.toNat` matches for the values reached here).
* Rust `Vec<T>` becomes `List ℚ`; in-place index assignment becomes `List.set`
  (a Rust out-of-bounds write panics while `List.set` is a no-op; no claim in
  scope reaches such an input).  Reads `v[i]` become `List.getD v i 0`.
* The fallible `process`/`set_resample_ratio` methods return the next state
  together with `Except String α`; the error strings are those of the source.
* The `while idx < end_idx` loop of `SincFixedIn::process` is modelled with an
  explicit iteration budget (`niters`) that still re-checks the loop guard at
  every step; `sincLoopFI_count` below shows that for a positive step the
  budget is exact (the guard is false when the budget runs out), so the
  budgeted loop and the source's while loop coincide.
* The modules `interpolation.rs` and `sinc.rs` of the crate are not part of
  the sources under review; the tap locators are modelled from the spec
  (see `get_nearest_time` and friends) and the sinc bank built by `make_sincs`
  is treated as an opaque parameter of the constructors.
-/

/-- Interpolation methods, from `enum InterpolationType` in `src/lib.rs`. -/
inductive InterpolationType where
  | Cubic
  | Linear
  | Nearest
deriving DecidableEq, Repr

/-- 8-lane accumulator used by `get_sinc_interpolated` (`[T; 8]` in the source). -/
abbrev Acc8 : Type := ℚ × ℚ × ℚ × ℚ × ℚ × ℚ × ℚ × ℚ

/-- The `fold` of `src/lib.rs` lines 218-232: walk two lists in chunks of 8,
adding the eight products of each chunk pair into the eight accumulator lanes.
The recursion stops as soon as either list has fewer than 8 elements left,
exactly as the `chunks(8).zip(...)` iterator stops at the shorter side (the
only divergence is where the source would panic on a ragged final chunk, which
cannot happen for the bank's guaranteed multiple-of-8 kernel lengths). -/
def fold8 : List ℚ → List ℚ → Acc8 → Acc8
  | x0 :: x1 :: x2 :: x3 :: x4 :: x5 :: x6 :: x7 :: xs,
    y0 :: y1 :: y2 :: y3 :: y4 :: y5 :: y6 :: y7 :: ys,
    (a0, a1, a2, a3, a4, a5, a6, a7) =>
      fold8 xs ys
        (a0 + x0 * y0, a1 + x1 * y1, a2 + x2 * y2, a3 + x3 * y3,
         a4 + x4 * y4, a5 + x5 * y5, a6 + x6 * y6, a7 + x7 * y7)
  | _, _, acc => acc

/-- Final `.iter().sum()` over the 8 accumulator lanes. -/
def sum8 : Acc8 → ℚ
  | (a0, a1, a2, a3, a4, a5, a6, a7) => a0 + a1 + a2 + a3 + a4 + a5 + a6 + a7

/-- `get_sinc_interpolated` (`src/lib.rs` lines 216-235): scalar product of the
selected sinc filter with the input-history slice starting at `index`.
`wave_cut = &wave[index..(index + sincs[subindex].len())]`. -/
def get_sinc_interpolated (sincs : List (List ℚ)) (wave : List ℚ)
    (index subindex : ℕ) : ℚ :=
  let sinc := sincs.getD subindex []
  let wave_cut := (wave.drop index).take sinc.length
  sum8 (fold8 wave_cut sinc (0, 0, 0, 0, 0, 0, 0, 0))

/-- `interp_cubic` (`src/lib.rs` lines 239-249): cubic polynomial through four
points assumed at x = -1, 0, 1, 2, evaluated at `x`.
`yvals.get_unchecked(i)` is modelled as `yvals.getD i 0`. -/
def interp_cubic (x : ℚ) (yvals : List ℚ) : ℚ :=
  let a0 := yvals.getD 1 0
  let a1 := -(1 / 3) * yvals.getD 0 0 - (1 / 2) * yvals.getD 1 0
    + yvals.getD 2 0 - (1 / 6) * yvals.getD 3 0
  let a2 := (1 / 2) * (yvals.getD 0 0 + yvals.getD 2 0) - yvals.getD 1 0
  let a3 := (1 / 2) * (yvals.getD 1 0 - yvals.getD 2 0)
    + (1 / 6) * (yvals.getD 3 0 - yvals.getD 0 0)
  a0 + a1 * x + a2 * x ^ 2 + a3 * x ^ 3

/-- `interp_lin` (`src/lib.rs` lines 252-254): linear interpolation between two
points at x = 0 and x = 1. -/
def interp_lin (x : ℚ) (yvals : List ℚ) : ℚ :=
  (1 - x) * yvals.getD 0 0 + x * yvals.getD 1 0

/-- Modelled from the spec (§4.C): `get_nearest_time` of the missing module
`interpolation.rs`.  `n = floor(idx)`, `k = round((idx - n) * F)`; when
rounding lifts `k` to `F` the tap carries into `(n + 1, 0)`. -/
def get_nearest_time (t : ℚ) (factor : ℤ) : ℤ × ℤ :=
  let n := ⌊t⌋
  let k := round ((t - n) * factor)
  if k = factor then (n + 1, 0) else (n, k)

/-- Modelled from the spec (§4.C): map an absolute oversampled-tap number `p`
back to coordinates `(n, k)` with `p = n * F + k`, `0 ≤ k < F`. -/
def tapOfIndex (p factor : ℤ) : ℤ × ℤ := (p.fdiv factor, p.emod factor)

/-- Modelled from the spec (§4.C): `get_nearest_times_2` of the missing module
`interpolation.rs`: the two oversampled taps bracketing `idx` for linear
interpolation. -/
def get_nearest_times_2 (t : ℚ) (factor : ℤ) : List (ℤ × ℤ) :=
  let p := ⌊t * (factor : ℚ)⌋
  [tapOfIndex p factor, tapOfIndex (p + 1) factor]

/-- Modelled from the spec (§4.C): `get_nearest_times_4` of the missing module
`interpolation.rs`: four successive oversampled taps centered on `idx·F`, for
cubic interpolation through abstract x = -1, 0, 1, 2. -/
def get_nearest_times_4 (t : ℚ) (factor : ℤ) : List (ℤ × ℤ) :=
  let p := ⌊t * (factor : ℚ)⌋
  [tapOfIndex (p - 1) factor, tapOfIndex p factor,
   tapOfIndex (p + 1) factor, tapOfIndex (p + 2) factor]

/-- One output sample for one channel at cursor position `idx`: locate taps,
convolve each with the channel history via `get_sinc_interpolated` at base
`tap.n + 2 * sinc_len`, and blend according to the interpolation mode.  This is
the per-channel body of the `match self.interpolation` arms of `process`
(`src/lib.rs` lines 363-440 and 620-686); the fractional offset
`frac = idx*F - floor(idx*F)` and the tap list are channel-independent in the
source and are simply recomputed here per channel. -/
def calcPoint (interp : InterpolationType) (sincs : List (List ℚ))
    (factor : ℕ) (sl : ℕ) (buf : List ℚ) (idx : ℚ) : ℚ :=
  match interp with
  | .Cubic =>
      let nearest := get_nearest_times_4 idx (factor : ℤ)
      let frac := idx * (factor : ℚ) - ⌊idx * (factor : ℚ)⌋
      let points := nearest.map fun nk =>
        get_sinc_interpolated sincs buf (nk.1 + 2 * (sl : ℤ)).toNat nk.2.toNat
      interp_cubic frac points
  | .Linear =>
      let nearest := get_nearest_times_2 idx (factor : ℤ)
      let frac := idx * (factor : ℚ) - ⌊idx * (factor : ℚ)⌋
      let points := nearest.map fun nk =>
        get_sinc_interpolated sincs buf (nk.1 + 2 * (sl : ℤ)).toNat nk.2.toNat
      interp_lin frac points
  | .Nearest =>
      let nk := get_nearest_time idx (factor : ℤ)
      get_sinc_interpolated sincs buf (nk.1 + 2 * (sl : ℤ)).toNat nk.2.toNat

/-- `let mut used_channels = ...` (`src/lib.rs` lines 326-336 and 590-600):
the indices of the non-empty input channels, in ascending order. -/
def usedChannels (ws : List (List ℚ)) : List ℕ :=
  (List.range ws.length).filter fun c => !(ws.getD c []).isEmpty

/-- The rolling-history shift (`src/lib.rs` lines 339-343 and 601-605): entry
`i < twoL` becomes `w[i + shift]`, the rest of the buffer is unchanged.  The
source's in-place ascending loop reads only positions at or beyond the write
cursor, so it equals this simultaneous description. -/
def shiftWave (shift twoL : ℕ) (w : List ℚ) : List ℚ :=
  (List.range w.length).map fun i =>
    if i < twoL then w.getD (i + shift) 0 else w.getD i 0

/-- `for (idx, sample) in wave_in[chan].iter().enumerate() { buffer[chan][idx + off] = sample }`
(`src/lib.rs` lines 348-350 and 611-613). -/
def writeSamples (buf : List ℚ) (off : ℕ) (xs : List ℚ) : List ℚ :=
  match xs with
  | [] => buf
  | x :: rest => writeSamples (buf.set off x) (off + 1) rest

/-- Append each active channel's fresh input into its shifted history at
offset `2 * sinc_len`. -/
def appendInput (used : List ℕ) (ws : List (List ℚ)) (bufs : List (List ℚ))
    (off : ℕ) : List (List ℚ) :=
  used.foldl (fun acc chan =>
    acc.set chan (writeSamples (acc.getD chan []) off (ws.getD chan []))) bufs

/-- `wave_out` initialisation: a vector of `nbrChannels` empty channels, with
each active channel replaced by the zero-filled output allocation
(`src/lib.rs` lines 345-356 and 608-615). -/
def initOutputs (used : List ℕ) (nbrChannels : ℕ) (alloc : List ℚ) :
    List (List ℚ) :=
  used.foldl (fun acc chan => acc.set chan alloc)
    (List.replicate nbrChannels ([] : List ℚ))

/-- Write one output sample into slot `n` of every active channel
(the inner `for chan in used_channels.iter()` loop of `process`). -/
def writeChans (interp : InterpolationType) (sincs : List (List ℚ))
    (factor sl : ℕ) (used : List ℕ) (bufs : List (List ℚ)) (idx : ℚ) (n : ℕ)
    (wo : List (List ℚ)) : List (List ℚ) :=
  used.foldl (fun acc chan =>
    acc.set chan ((acc.getD chan []).set n
      (calcPoint interp sincs factor sl (bufs.getD chan []) idx))) wo

/-- `wave_out[chan].truncate(n)` for each active channel
(`src/lib.rs` lines 444-447). -/
def truncUsed (used : List ℕ) (n : ℕ) (wo : List (List ℚ)) :
    List (List ℚ) :=
  used.foldl (fun acc chan => acc.set chan ((acc.getD chan []).take n)) wo

/-- Iteration budget for the fixed-in `while idx < end_idx` loop: the least
number of steps of size `tratio` after which the cursor reaches `end_idx`.
`sincLoopFI` below still checks the loop guard at every step, and
`sincLoopFI_count` proves the budget exact for `0 < tratio`. -/
def niters (endIdx idx tratio : ℚ) : ℕ :=
  if 0 < tratio then (Int.ceil ((endIdx - idx) / tratio)).toNat else 0

/-- The fixed-in output loop (`src/lib.rs` lines 358-440): while the cursor is
before `end_idx`, advance it by `tratio`, synthesize one sample per active
channel into output slot `n`, and increment `n`.  Returns the final cursor,
the number of produced frames, and the filled outputs. -/
def sincLoopFI (interp : InterpolationType) (sincs : List (List ℚ))
    (factor sl : ℕ) (used : List ℕ) (bufs : List (List ℚ))
    (endIdx tratio : ℚ) :
    ℕ → ℚ → ℕ → List (List ℚ) → ℚ × ℕ × List (List ℚ)
  | 0, idx, n, wo => (idx, n, wo)
  | fuel + 1, idx, n, wo =>
    if idx < endIdx then
      sincLoopFI interp sincs factor sl used bufs endIdx tratio fuel
        (idx + tratio) (n + 1)
        (writeChans interp sincs factor sl used bufs (idx + tratio) n wo)
    else (idx, n, wo)

/-- The fixed-out output loop (`src/lib.rs` lines 620-686):
`for n in 0..chunk_size { idx += t_ratio; ... }`. -/
def sincLoopFO (interp : InterpolationType) (sincs : List (List ℚ))
    (factor sl : ℕ) (used : List ℕ) (bufs : List (List ℚ)) (tratio : ℚ) :
    ℕ → ℕ → ℚ → List (List ℚ) → ℚ × List (List ℚ)
  | 0, _, idx, wo => (idx, wo)
  | count + 1, n, idx, wo =>
    sincLoopFO interp sincs factor sl used bufs tratio count (n + 1)
      (idx + tratio)
      (writeChans interp sincs factor sl used bufs (idx + tratio) n wo)

/-- State of `SincFixedIn<T>` (`src/lib.rs` lines 179-190), with `T` modelled
as `ℚ`. -/
structure SincFixedIn where
  nbr_channels : ℕ
  chunk_size : ℕ
  oversampling_factor : ℕ
  last_index : ℚ
  resample_ratio : ℚ
  resample_ratio_original : ℚ
  sinc_len : ℕ
  sincs : List (List ℚ)
  buffer : List (List ℚ)
  interpolation : InterpolationType
deriving DecidableEq, Repr

/-- State of `SincFixedOut<T>` (`src/lib.rs` lines 197-210). -/
structure SincFixedOut where
  nbr_channels : ℕ
  chunk_size : ℕ
  needed_input_size : ℕ
  oversampling_factor : ℕ
  last_index : ℚ
  current_buffer_fill : ℕ
  resample_ratio : ℚ
  resample_ratio_original : ℚ
  sinc_len : ℕ
  sincs : List (List ℚ)
  buffer : List (List ℚ)
  interpolation : InterpolationType
deriving DecidableEq, Repr

/-- `SincFixedIn::new` (`src/lib.rs` lines 271-307).  `sinc_len` is the
requested length rounded up to a multiple of 8 (the source computes
`8 * ((sinc_len as f32 / 8.0).ceil() as usize)`, exact for the integer range
in use).  The sinc bank built by `make_sincs` (module `sinc.rs`, not under
review) is passed in as the `sincs` argument; the cutoff and window parameters
only feed that bank and are omitted. -/
def SincFixedIn.new (resample_ratio : ℚ) (sinc_len_param : ℕ)
    (oversampling_factor : ℕ) (interp : InterpolationType)
    (sincs : List (List ℚ)) (chunk_size nbr_channels : ℕ) : SincFixedIn :=
  let sl := 8 * ((sinc_len_param + 7) / 8)
  { nbr_channels := nbr_channels
    chunk_size := chunk_size
    oversampling_factor := oversampling_factor
    last_index := -((sl / 2 : ℕ) : ℚ)
    resample_ratio := resample_ratio
    resample_ratio_original := resample_ratio
    sinc_len := sl
    sincs := sincs
    buffer := List.replicate nbr_channels
      (List.replicate (chunk_size + 2 * sl) (0 : ℚ))
    interpolation := interp }

/-- `SincFixedOut::new` (`src/lib.rs` lines 496-536).
`needed_input_size = (chunk_size / resample_ratio).ceil() as usize + 2 + sinc_len / 2`. -/
def SincFixedOut.new (resample_ratio : ℚ) (sinc_len_param : ℕ)
    (oversampling_factor : ℕ) (interp : InterpolationType)
    (sincs : List (List ℚ)) (chunk_size nbr_channels : ℕ) : SincFixedOut :=
  let sl := 8 * ((sinc_len_param + 7) / 8)
  let needed := (Int.ceil ((chunk_size : ℚ) / resample_ratio)).toNat + 2 + sl / 2
  { nbr_channels := nbr_channels
    chunk_size := chunk_size
    needed_input_size := needed
    oversampling_factor := oversampling_factor
    last_index := -((sl / 2 : ℕ) : ℚ)
    current_buffer_fill := needed
    resample_ratio := resample_ratio
    resample_ratio_original := resample_ratio
    sinc_len := sl
    sincs := sincs
    buffer := List.replicate nbr_channels
      (List.replicate (3 * needed / 2 + 2 * sl) (0 : ℚ))
    interpolation := interp }

/-- The post-validation body of `SincFixedIn::process`
(`src/lib.rs` lines 337-454): shift the history, append the new samples of
the active channels, run the output loop from the carried cursor, truncate
the active outputs to the produced frame count, and carry the rebased
cursor. -/
def SincFixedIn.processCore (s : SincFixedIn) (wave_in : List (List ℚ)) :
    SincFixedIn × Except String (List (List ℚ)) :=
  let used := usedChannels wave_in
  let endIdx : ℚ := (s.chunk_size : ℚ) - ((s.sinc_len : ℚ) + 1)
  let shifted := s.buffer.map (shiftWave s.chunk_size (2 * s.sinc_len))
  let bufs := appendInput used wave_in shifted (2 * s.sinc_len)
  let outCap : ℕ :=
    (Int.floor ((s.chunk_size : ℚ) * s.resample_ratio + 10)).toNat
  let wo0 := initOutputs used s.nbr_channels (List.replicate outCap (0 : ℚ))
  let tratio : ℚ := 1 / s.resample_ratio
  let res := sincLoopFI s.interpolation s.sincs s.oversampling_factor
    s.sinc_len used bufs endIdx tratio (niters endIdx s.last_index tratio)
    s.last_index 0 wo0
  ({ s with
      last_index := res.1 - (s.chunk_size : ℚ)
      buffer := bufs },
    .ok (truncUsed used res.2.1 res.2.2))

/-- `SincFixedIn::process` (`src/lib.rs` lines 320-455). -/
def SincFixedIn.process (s : SincFixedIn) (wave_in : List (List ℚ)) :
    SincFixedIn × Except String (List (List ℚ)) :=
  if wave_in.length ≠ s.nbr_channels then
    (s, .error "Wrong number of channels in input")
  else if wave_in.any (fun w => !w.isEmpty && w.length != s.chunk_size) then
    (s, .error "Wrong number of frames in input")
  else
    s.processCore wave_in

/-- `SincFixedIn::set_resample_ratio` (`src/lib.rs` lines 458-470). -/
def SincFixedIn.set_resample_ratio (s : SincFixedIn) (new_ratio : ℚ) :
    SincFixedIn × Except String Unit :=
  if 0.9 < new_ratio / s.resample_ratio_original ∧
      new_ratio / s.resample_ratio_original < 1.1 then
    ({ s with resample_ratio := new_ratio }, .ok ())
  else
    (s, .error "New resample ratio is too far off from original")

/-- `SincFixedIn::set_resample_ratio_relative` (`src/lib.rs` lines 472-475). -/
def SincFixedIn.set_resample_ratio_relative (s : SincFixedIn) (rel : ℚ) :
    SincFixedIn × Except String Unit :=
  s.set_resample_ratio (s.resample_ratio_original * rel)

/-- `SincFixedIn::nbr_frames_needed` (`src/lib.rs` lines 479-481). -/
def SincFixedIn.nbr_frames_needed (s : SincFixedIn) : ℕ := s.chunk_size

/-- `SincFixedOut::nbr_frames_needed` (`src/lib.rs` lines 543-545). -/
def SincFixedOut.nbr_frames_needed (s : SincFixedOut) : ℕ :=
  s.needed_input_size

/-- The `needed_input_size` update formula shared by
`SincFixedOut::set_resample_ratio` and the tail of `SincFixedOut::process`
(`src/lib.rs` lines 554-558 and 691-695): `ceil(last_index + chunk_size /
resample_ratio + sinc_len) as usize + 2` (the source casts through `f32`;
the arithmetic is exact here). -/
def neededInputFor (lastIndex : ℚ) (chunkSize : ℕ) (ratio : ℚ)
    (sl : ℕ) : ℕ :=
  (Int.ceil (lastIndex + (chunkSize : ℚ) / ratio + (sl : ℚ))).toNat + 2

/-- `SincFixedOut::set_resample_ratio` (`src/lib.rs` lines 548-565). -/
def SincFixedOut.set_resample_ratio (s : SincFixedOut) (new_ratio : ℚ) :
    SincFixedOut × Except String Unit :=
  if 0.9 < new_ratio / s.resample_ratio_original ∧
      new_ratio / s.resample_ratio_original < 1.1 then
    ({ s with
        resample_ratio := new_ratio
        needed_input_size :=
          neededInputFor s.last_index s.chunk_size new_ratio s.sinc_len },
      .ok ())
  else
    (s, .error "New resample ratio is too far off from original")

/-- `SincFixedOut::set_resample_ratio_relative` (`src/lib.rs` lines 568-571). -/
def SincFixedOut.set_resample_ratio_relative (s : SincFixedOut) (rel : ℚ) :
    SincFixedOut × Except String Unit :=
  s.set_resample_ratio (s.resample_ratio_original * rel)

/-- The post-validation body of `SincFixedOut::process`
(`src/lib.rs` lines 601-704): shift the history by the previous buffer fill,
record the new fill, append the active channels' samples, emit exactly
`chunk_size` frames, rebase the cursor, and recompute `needed_input_size`. -/
def SincFixedOut.processCore (s : SincFixedOut) (wave_in : List (List ℚ)) :
    SincFixedOut × Except String (List (List ℚ)) :=
  let used := usedChannels wave_in
  let shifted := s.buffer.map (shiftWave s.current_buffer_fill (2 * s.sinc_len))
  let fill : ℕ := s.needed_input_size
  let bufs := appendInput used wave_in shifted (2 * s.sinc_len)
  let wo0 := initOutputs used s.nbr_channels
    (List.replicate s.chunk_size (0 : ℚ))
  let tratio : ℚ := 1 / s.resample_ratio
  let res := sincLoopFO s.interpolation s.sincs s.oversampling_factor
    s.sinc_len used bufs tratio s.chunk_size 0 s.last_index wo0
  let lastIdx : ℚ := res.1 - (fill : ℚ)
  ({ s with
      last_index := lastIdx
      current_buffer_fill := fill
      needed_input_size :=
        neededInputFor lastIdx s.chunk_size s.resample_ratio s.sinc_len
      buffer := bufs },
    .ok res.2)

/-- `SincFixedOut::process` (`src/lib.rs` lines 582-705). -/
def SincFixedOut.process (s : SincFixedOut) (wave_in : List (List ℚ)) :
    SincFixedOut × Except String (List (List ℚ)) :=
  if wave_in.length ≠ s.nbr_channels then
    (s, .error "Wrong number of channels in input")
  else if wave_in.any
      (fun w => !w.isEmpty && w.length != s.needed_input_size) then
    (s, .error "Wrong number of frames in input")
  else
    s.processCore wave_in

/-! ### Generic list lemmas -/

/-- All samples of a wave are zero. -/
def ZeroWave (w : List ℚ) : Prop := ∀ x ∈ w, x = 0

/-- All samples of all waves are zero. -/
def ZeroWaves (ws : List (List ℚ)) : Prop := ∀ w ∈ ws, ZeroWave w

lemma ZeroWave.getD_eq {w : List ℚ} (h : ZeroWave w) (i : ℕ) :
    w.getD i 0 = 0 := by
  rcases lt_or_le i w.length with hi | hi
  · rw [List.getD_eq_getElem?_getD, List.getElem?_eq_getElem hi]
    exact h _ (List.getElem_mem hi)
  · rw [List.getD_eq_getElem?_getD, List.getElem?_eq_none hi]
    rfl

lemma ZeroWaves.getD_mem {ws : List (List ℚ)} (h : ZeroWaves ws) (i : ℕ) :
    ZeroWave (ws.getD i []) := by
  rcases lt_or_le i ws.length with hi | hi
  · rw [List.getD_eq_getElem?_getD, List.getElem?_eq_getElem hi]
    exact h _ (List.getElem_mem hi)
  · rw [List.getD_eq_getElem?_getD, List.getElem?_eq_none hi]
    intro x hx; cases hx

lemma ZeroWave.set {w : List ℚ} (h : ZeroWave w) {v : ℚ} (hv : v = 0) (n : ℕ) :
    ZeroWave (w.set n v) := by
  intro x hx
  rcases List.mem_or_eq_of_mem_set hx with hx' | hx'
  · exact h _ hx'
  · exact hx'.trans hv

/-- Length is preserved by the `foldl`-of-`set` pattern shared by
`appendInput`, `initOutputs`, `writeChans` and `truncUsed`. -/
lemma foldlSet_length (f : ℕ → List ℚ → List ℚ) (used : List ℕ)
    (init : List (List ℚ)) :
    (used.foldl (fun acc ch => acc.set ch (f ch (acc.getD ch []))) init).length
      = init.length := by
  induction used generalizing init with
  | nil => rfl
  | cons a rest ih => simpa [List.length_set] using ih (init.set a (f a (init.getD a [])))

/-- Channel projection through the `foldl`-of-`set` pattern: with distinct
channel indices, entry `j` of the result is `f j` of entry `j` of the start
when `j` is in the list, and untouched otherwise. -/
lemma foldlSet_getD (f : ℕ → List ℚ → List ℚ) (used : List ℕ)
    (init : List (List ℚ)) (j : ℕ) (hnd : used.Nodup)
    (hlt : ∀ i ∈ used, i < init.length) :
    (used.foldl (fun acc ch => acc.set ch (f ch (acc.getD ch []))) init).getD j []
      = if j ∈ used then f j (init.getD j []) else init.getD j [] := by
  induction used generalizing init with
  | nil => simp
  | cons a rest ih =>
    have hnd' : rest.Nodup := hnd.of_cons
    have ha : a ∉ rest := (List.nodup_cons.mp hnd).1
    have haInit : a < init.length := hlt a (List.mem_cons_self a rest)
    have hlt' : ∀ i ∈ rest, i < (init.set a (f a (init.getD a []))).length := by
      intro i hi
      simpa [List.length_set] using hlt i (List.mem_cons_of_mem a hi)
    rw [List.foldl_cons, ih _ hnd' hlt']
    by_cases hj : j = a
    · subst hj
      have : j ∉ rest := ha
      simp only [this, if_false, List.mem_cons, true_or, if_true]
      rw [List.getD_eq_getElem?_getD, List.getElem?_set_self haInit]
      rfl
    · have hset : (init.set a (f a (init.getD a []))).getD j []
          = init.getD j [] := by
        rw [List.getD_eq_getElem?_getD, List.getElem?_set_ne (by omega),
          ← List.getD_eq_getElem?_getD]
      by_cases hjr : j ∈ rest
      · have hc : j ∈ a :: rest := List.mem_cons_of_mem a hjr
        rw [if_pos hjr, if_pos hc]
        exact congrArg (f j) hset
      · have hnc : j ∉ a :: rest := by simp [List.mem_cons, hj, hjr]
        rw [if_neg hjr, if_neg hnc]
        exact hset

/-- Zero-waves are preserved by the `foldl`-of-`set` pattern whenever the
per-channel update preserves zero waves. -/
lemma foldlSet_zeroWaves (f : ℕ → List ℚ → List ℚ) (used : List ℕ)
    (init : List (List ℚ)) (hinit : ZeroWaves init)
    (hf : ∀ ch w, ZeroWave w → ZeroWave (f ch w)) :
    ZeroWaves (used.foldl (fun acc ch => acc.set ch (f ch (acc.getD ch []))) init) := by
  induction used generalizing init with
  | nil => exact hinit
  | cons a rest ih =>
    refine ih (init.set a (f a (init.getD a []))) ?_
    intro w hw
    rcases List.mem_or_eq_of_mem_set hw with hw' | hw'
    · exact hinit _ hw'
    · exact hw' ▸ hf a _ (hinit.getD_mem a)

lemma usedChannels_nodup (ws : List (List ℚ)) : (usedChannels ws).Nodup :=
  (List.nodup_range ws.length).filter _

lemma mem_usedChannels {ws : List (List ℚ)} {j : ℕ} :
    j ∈ usedChannels ws ↔ j < ws.length ∧ ws.getD j [] ≠ [] := by
  simp [usedChannels, List.mem_filter, List.mem_range, List.isEmpty_iff]

/-! ### The 8-lane fold versus the plain dot product -/

/-- Naive reference dot product of two equal-length sample lists. -/
def dotProd (xs ys : List ℚ) : ℚ := (List.zipWith (· * ·) xs ys).sum

lemma fold8_zero (xs ys : List ℚ) (acc : Acc8) (hx : ZeroWave xs) :
    fold8 xs ys acc = acc := by
  induction xs, ys, acc using fold8.induct with
  | case1 x0 x1 x2 x3 x4 x5 x6 x7 xs y0 y1 y2 y3 y4 y5 y6 y7 ys a0 a1 a2 a3 a4 a5 a6 a7 ih =>
    rw [fold8]
    have h0 : x0 = 0 := hx _ (by simp)
    have h1 : x1 = 0 := hx _ (by simp)
    have h2 : x2 = 0 := hx _ (by simp)
    have h3 : x3 = 0 := hx _ (by simp)
    have h4 : x4 = 0 := hx _ (by simp)
    have h5 : x5 = 0 := hx _ (by simp)
    have h6 : x6 = 0 := hx _ (by simp)
    have h7 : x7 = 0 := hx _ (by simp)
    have hxs : ZeroWave xs := by
      intro x hxm
      exact hx _ (by simp [hxm])
    have ih' := ih hxs
    simp only [h0, h1, h2, h3, h4, h5, h6, h7, zero_mul, add_zero] at ih' ⊢
    exact ih'
  | case2 xs ys acc h =>
    rw [fold8.eq_def]
    split
    next x0 x1 x2 x3 x4 x5 x6 x7 xs' y0 y1 y2 y3 y4 y5 y6 y7 ys' a0 a1 a2 a3 a4 a5 a6 a7 =>
      exact (h x0 x1 x2 x3 x4 x5 x6 x7 xs' y0 y1 y2 y3 y4 y5 y6 y7 ys' a0 a1 a2 a3 a4 a5 a6 a7 rfl rfl rfl).elim
    next => rfl

lemma dotProd_nil : dotProd [] [] = 0 := rfl

lemma dotProd_cons (x y : ℚ) (xs ys : List ℚ) :
    dotProd (x :: xs) (y :: ys) = x * y + dotProd xs ys := by
  simp [dotProd]

lemma exists_cons8 (xs : List ℚ) (h : 8 ≤ xs.length) :
    ∃ x0 x1 x2 x3 x4 x5 x6 x7 t,
      xs = x0 :: x1 :: x2 :: x3 :: x4 :: x5 :: x6 :: x7 :: t := by
  match xs, h with
  | x0 :: x1 :: x2 :: x3 :: x4 :: x5 :: x6 :: x7 :: t, _ =>
    exact ⟨x0, x1, x2, x3, x4, x5, x6, x7, t, rfl⟩
  | [], h => simp at h
  | [a0], h => simp at h
  | [a0, a1], h => simp at h
  | [a0, a1, a2], h => simp at h
  | [a0, a1, a2, a3], h => simp at h
  | [a0, a1, a2, a3, a4], h => simp at h
  | [a0, a1, a2, a3, a4, a5], h => simp at h
  | [a0, a1, a2, a3, a4, a5, a6], h => simp at h

/-- The 8-lane chunked fold accumulates exactly the dot product, for lists of
equal 8-divisible length. -/
lemma sum8_fold8 (xs ys : List ℚ) (acc : Acc8) (hlen : xs.length = ys.length)
    (hdvd : 8 ∣ xs.length) :
    sum8 (fold8 xs ys acc) = sum8 acc + dotProd xs ys := by
  induction xs, ys, acc using fold8.induct with
  | case1 x0 x1 x2 x3 x4 x5 x6 x7 xs y0 y1 y2 y3 y4 y5 y6 y7 ys a0 a1 a2 a3 a4 a5 a6 a7 ih =>
    have hlen' : xs.length = ys.length := by simpa using hlen
    have hdvd' : 8 ∣ xs.length := by
      rcases hdvd with ⟨k, hk⟩
      simp only [List.length_cons] at hk
      exact ⟨k - 1, by omega⟩
    rw [fold8, ih hlen' hdvd']
    simp only [dotProd_cons, sum8]
    ring
  | case2 xs ys acc h =>
    have hlt : xs.length < 8 := by
      by_contra hge
      push_neg at hge
      obtain ⟨x0, x1, x2, x3, x4, x5, x6, x7, t, rfl⟩ := exists_cons8 xs hge
      have hge' : 8 ≤ ys.length := by
        rw [← hlen]; simp
      obtain ⟨y0, y1, y2, y3, y4, y5, y6, y7, u, rfl⟩ := exists_cons8 ys hge'
      obtain ⟨a0, a1, a2, a3, a4, a5, a6, a7⟩ := acc
      exact h x0 x1 x2 x3 x4 x5 x6 x7 t y0 y1 y2 y3 y4 y5 y6 y7 u a0 a1 a2 a3 a4 a5 a6 a7 rfl rfl rfl
    have hx : xs = [] := by
      rcases hdvd with ⟨k, hk⟩
      have : xs.length = 0 := by omega
      exact List.length_eq_zero.mp this
    subst hx
    have hy' : ys = [] := List.length_eq_zero.mp (by simpa using hlen.symm)
    subst hy'
    obtain ⟨a0, a1, a2, a3, a4, a5, a6, a7⟩ := acc
    simp [fold8, dotProd]

lemma dotProd_eq_sum (xs ys : List ℚ) :
    dotProd xs ys
      = ∑ n ∈ Finset.range (min xs.length ys.length),
          xs.getD n 0 * ys.getD n 0 := by
  induction xs generalizing ys with
  | nil => simp [dotProd]
  | cons x xs ih =>
    cases ys with
    | nil => simp [dotProd]
    | cons y ys =>
      rw [dotProd_cons, ih ys]
      have : min (x :: xs).length (y :: ys).length
          = min xs.length ys.length + 1 := by
        simp [Nat.succ_min_succ]
      rw [this, Finset.sum_range_succ']
      simp [List.getD_cons_succ, List.getD_cons_zero, add_comm]

/-- The claim-C9 statement, for an arbitrary kernel list: the 8-lane chunked
fold of `get_sinc_interpolated` equals the naive reference dot product. -/
theorem C9_get_sinc_interpolated_dot (sincs : List (List ℚ)) (wave : List ℚ)
    (i k m : ℕ) (hlen : (sincs.getD k []).length = 8 * m)
    (hbound : i + (sincs.getD k []).length ≤ wave.length) :
    get_sinc_interpolated sincs wave i k
      = ∑ n ∈ Finset.range (sincs.getD k []).length,
          wave.getD (i + n) 0 * (sincs.getD k []).getD n 0 := by
  set sinc := sincs.getD k [] with hsinc
  set cut := (wave.drop i).take sinc.length with hcut
  have hcutlen : cut.length = sinc.length := by
    rw [hcut, List.length_take, List.length_drop]
    omega
  have hdvd : 8 ∣ cut.length := by
    rw [hcutlen, hlen]
    exact ⟨m, rfl⟩
  have hmain : get_sinc_interpolated sincs wave i k
      = sum8 (0, 0, 0, 0, 0, 0, 0, 0) + dotProd cut sinc := by
    rw [get_sinc_interpolated]
    exact sum8_fold8 cut sinc _ (by rw [hcutlen]) hdvd
  rw [hmain, dotProd_eq_sum, hcutlen, min_self]
  have hz : sum8 (0, 0, 0, 0, 0, 0, 0, 0) = 0 := by simp [sum8]
  rw [hz, zero_add]
  refine Finset.sum_congr rfl ?_
  intro n hn
  have hn' : n < sinc.length := Finset.mem_range.mp hn
  have : cut.getD n 0 = wave.getD (i + n) 0 := by
    rw [List.getD_eq_getElem?_getD, List.getD_eq_getElem?_getD, hcut,
      List.getElem?_take, if_pos hn', List.getElem?_drop]
  rw [this]

/-! ### Interpolator and ratio-update claims -/

/-- C3: `interp_cubic(x, [y₋₁, y₀, y₁, y₂])` is the cubic
`a₀ + a₁·x + a₂·x² + a₃·x³` with the spec's coefficients; it passes through
`y₀` at `x = 0`, and `interp_cubic(0.5, [0, 2, 4, 6]) = 3`. -/
theorem C3_interp_cubic_spec (x ym1 y0 y1 y2 : ℚ) :
    interp_cubic x [ym1, y0, y1, y2]
      = y0 + (-(1 / 3) * ym1 - (1 / 2) * y0 + y1 - (1 / 6) * y2) * x
        + ((1 / 2) * (ym1 + y1) - y0) * x ^ 2
        + ((1 / 2) * (y0 - y1) + (1 / 6) * (y2 - ym1)) * x ^ 3
    ∧ interp_cubic 0 [ym1, y0, y1, y2] = y0
    ∧ interp_cubic (1 / 2) [0, 2, 4, 6] = 3 := by
  exact ⟨by simp [interp_cubic], by simp [interp_cubic],
    by norm_num [interp_cubic]⟩

/-- C4: for both drivers, `set_resample_ratio(r')` succeeds and installs `r'`
exactly when `0.9 < r' / resample_ratio_original < 1.1` (strict); otherwise it
reports the ratio-out-of-range error and leaves the state unchanged; and
`set_resample_ratio_relative(s)` is `set_resample_ratio(original · s)`. -/
theorem C4_set_resample_ratio_spec (sI : SincFixedIn) (sO : SincFixedOut)
    (x y : ℚ) :
    ((sI.set_resample_ratio x).2 = .ok () ↔
      0.9 < x / sI.resample_ratio_original ∧
        x / sI.resample_ratio_original < 1.1)
    ∧ (sI.set_resample_ratio x).1
        = (if 0.9 < x / sI.resample_ratio_original ∧
              x / sI.resample_ratio_original < 1.1 then
            { sI with resample_ratio := x } else sI)
    ∧ ((sI.set_resample_ratio x).2
        = .error "New resample ratio is too far off from original" ↔
      ¬(0.9 < x / sI.resample_ratio_original ∧
          x / sI.resample_ratio_original < 1.1))
    ∧ sI.set_resample_ratio_relative y
        = sI.set_resample_ratio (sI.resample_ratio_original * y)
    ∧ ((sO.set_resample_ratio x).2 = .ok () ↔
      0.9 < x / sO.resample_ratio_original ∧
        x / sO.resample_ratio_original < 1.1)
    ∧ (sO.set_resample_ratio x).1
        = (if 0.9 < x / sO.resample_ratio_original ∧
              x / sO.resample_ratio_original < 1.1 then
            { sO with
               resample_ratio := x
               needed_input_size :=
                 neededInputFor sO.last_index sO.chunk_size x sO.sinc_len }
          else sO)
    ∧ ((sO.set_resample_ratio x).2
        = .error "New resample ratio is too far off from original" ↔
      ¬(0.9 < x / sO.resample_ratio_original ∧
          x / sO.resample_ratio_original < 1.1))
    ∧ sO.set_resample_ratio_relative y
        = sO.set_resample_ratio (sO.resample_ratio_original * y) := by
  refine ⟨?_, ?_, ?_, rfl, ?_, ?_, ?_, rfl⟩ <;>
    · simp only [SincFixedIn.set_resample_ratio, SincFixedOut.set_resample_ratio]
      split_ifs <;> simp_all

/-- C5: whenever `process` rejects its input, the driver state is returned
unchanged: all validations happen before any mutation. -/
theorem C5_error_state_unchanged (sI : SincFixedIn) (sO : SincFixedOut)
    (ws vs : List (List ℚ)) (e1 e2 : String) :
    ((sI.process ws).2 = .error e1 → (sI.process ws).1 = sI)
    ∧ ((sO.process vs).2 = .error e2 → (sO.process vs).1 = sO) := by
  constructor
  · intro h
    rw [SincFixedIn.process] at h ⊢
    split_ifs at h ⊢ <;> simp_all [SincFixedIn.processCore]
  · intro h
    rw [SincFixedOut.process] at h ⊢
    split_ifs at h ⊢ <;> simp_all [SincFixedOut.processCore]

/-- A small concrete sinc bank (one kernel of length 8) for witnesses. -/
def exSincs : List (List ℚ) := [List.replicate 8 0]

/-- A small concrete fixed-input driver: ratio 1, sinc_len 8, oversampling 1,
nearest interpolation, chunk 16, one channel. -/
def exFI : SincFixedIn := SincFixedIn.new 1 8 1 .Nearest exSincs 16 1

/-- A small concrete fixed-output driver: ratio 1, sinc_len 8, oversampling 1,
nearest interpolation, chunk 4, one channel.  The field values are exactly
those produced by `SincFixedOut.new 1 8 1 .Nearest exSincs 4 1`, spelled out
as literals (`needed_input_size = ceil(4/1) + 2 + 8/2 = 10`). -/
def exFO : SincFixedOut :=
  { nbr_channels := 1
    chunk_size := 4
    needed_input_size := 10
    oversampling_factor := 1
    last_index := -4
    current_buffer_fill := 10
    resample_ratio := 1
    resample_ratio_original := 1
    sinc_len := 8
    sincs := exSincs
    buffer := List.replicate 1 (List.replicate 31 (0 : ℚ))
    interpolation := .Nearest }

theorem C5_error_state_unchanged_witness :
    (exFI.process []).2 = .error "Wrong number of channels in input"
    ∧ (exFI.process []).1 = exFI
    ∧ (exFO.process []).2 = .error "Wrong number of channels in input"
    ∧ (exFO.process []).1 = exFO :=
  ⟨rfl,
   (C5_error_state_unchanged exFI exFO [] []
      "Wrong number of channels in input"
      "Wrong number of channels in input").1 rfl,
   rfl,
   (C5_error_state_unchanged exFI exFO [] []
      "Wrong number of channels in input"
      "Wrong number of channels in input").2 rfl⟩

theorem C9_get_sinc_interpolated_dot_witness :
    (([[(1 : ℚ), 2, 3, 4, 5, 6, 7, 8]].getD 0 []).length = 8 * 1)
    ∧ (0 + ([[(1 : ℚ), 2, 3, 4, 5, 6, 7, 8]].getD 0 []).length
        ≤ ([1, 1, 1, 1, 1, 1, 1, 1] : List ℚ).length)
    ∧ get_sinc_interpolated [[(1 : ℚ), 2, 3, 4, 5, 6, 7, 8]]
        [1, 1, 1, 1, 1, 1, 1, 1] 0 0
      = ∑ n ∈ Finset.range ([[(1 : ℚ), 2, 3, 4, 5, 6, 7, 8]].getD 0 []).length,
          ([1, 1, 1, 1, 1, 1, 1, 1] : List ℚ).getD (0 + n) 0
            * ([[(1 : ℚ), 2, 3, 4, 5, 6, 7, 8]].getD 0 []).getD n 0 :=
  ⟨by decide, by decide,
   C9_get_sinc_interpolated_dot [[(1 : ℚ), 2, 3, 4, 5, 6, 7, 8]]
     [1, 1, 1, 1, 1, 1, 1, 1] 0 0 1 (by decide) (by decide)⟩

/-! ### Reduction of `process` on valid input, and loop lemmas -/

lemma processFI_valid (s : SincFixedIn) (ws : List (List ℚ))
    (h1 : ws.length = s.nbr_channels)
    (h2 : ∀ w ∈ ws, w ≠ [] → w.length = s.chunk_size) :
    s.process ws = s.processCore ws := by
  rw [SincFixedIn.process, if_neg (by omega), if_neg]
  intro hany
  rw [List.any_eq_true] at hany
  obtain ⟨w, hw, hbad⟩ := hany
  rw [Bool.and_eq_true] at hbad
  obtain ⟨hne, hlen⟩ := hbad
  have hwne : w ≠ [] := by
    intro hnil
    rw [hnil] at hne
    simp at hne
  have := h2 w hw hwne
  rw [this] at hlen
  simp at hlen

lemma processFO_valid (s : SincFixedOut) (ws : List (List ℚ))
    (h1 : ws.length = s.nbr_channels)
    (h2 : ∀ w ∈ ws, w ≠ [] → w.length = s.needed_input_size) :
    s.process ws = s.processCore ws := by
  rw [SincFixedOut.process, if_neg (by omega), if_neg]
  intro hany
  rw [List.any_eq_true] at hany
  obtain ⟨w, hw, hbad⟩ := hany
  rw [Bool.and_eq_true] at hbad
  obtain ⟨hne, hlen⟩ := hbad
  have hwne : w ≠ [] := by
    intro hnil
    rw [hnil] at hne
    simp at hne
  have := h2 w hw hwne
  rw [this] at hlen
  simp at hlen

lemma writeChans_length (interp : InterpolationType) (sincs : List (List ℚ))
    (factor sl : ℕ) (used : List ℕ) (bufs : List (List ℚ)) (idx : ℚ) (n : ℕ)
    (wo : List (List ℚ)) :
    (writeChans interp sincs factor sl used bufs idx n wo).length
      = wo.length :=
  foldlSet_length
    (fun ch w => w.set n (calcPoint interp sincs factor sl (bufs.getD ch []) idx))
    used wo

lemma writeChans_getD (interp : InterpolationType) (sincs : List (List ℚ))
    (factor sl : ℕ) (used : List ℕ) (bufs : List (List ℚ)) (idx : ℚ) (n : ℕ)
    (wo : List (List ℚ)) (j : ℕ) (hnd : used.Nodup)
    (hlt : ∀ i ∈ used, i < wo.length) :
    (writeChans interp sincs factor sl used bufs idx n wo).getD j []
      = if j ∈ used then
          (wo.getD j []).set n
            (calcPoint interp sincs factor sl (bufs.getD j []) idx)
        else wo.getD j [] :=
  foldlSet_getD
    (fun ch w => w.set n (calcPoint interp sincs factor sl (bufs.getD ch []) idx))
    used wo j hnd hlt

/-- Per-channel restriction of the fixed-in output loop: what `sincLoopFI`
does to the output list of one active channel. -/
def chanLoopFI (interp : InterpolationType) (sincs : List (List ℚ))
    (factor sl : ℕ) (buf : List ℚ) (endIdx tratio : ℚ) :
    ℕ → ℚ → ℕ → List ℚ → List ℚ
  | 0, _, _, w => w
  | fuel + 1, idx, n, w =>
    if idx < endIdx then
      chanLoopFI interp sincs factor sl buf endIdx tratio fuel
        (idx + tratio) (n + 1)
        (w.set n (calcPoint interp sincs factor sl buf (idx + tratio)))
    else w

/-- Per-channel restriction of the fixed-out output loop. -/
def chanLoopFO (interp : InterpolationType) (sincs : List (List ℚ))
    (factor sl : ℕ) (buf : List ℚ) (tratio : ℚ) :
    ℕ → ℕ → ℚ → List ℚ → List ℚ
  | 0, _, _, w => w
  | count + 1, n, idx, w =>
    chanLoopFO interp sincs factor sl buf tratio count (n + 1) (idx + tratio)
      (w.set n (calcPoint interp sincs factor sl buf (idx + tratio)))

lemma chanLoopFI_length (interp : InterpolationType) (sincs : List (List ℚ))
    (factor sl : ℕ) (buf : List ℚ) (endIdx tratio : ℚ) (fuel : ℕ) :
    ∀ (idx : ℚ) (n : ℕ) (w : List ℚ),
    (chanLoopFI interp sincs factor sl buf endIdx tratio fuel idx n w).length
      = w.length := by
  induction fuel with
  | zero => intro idx n w; rfl
  | succ fuel ih =>
    intro idx n w
    rw [chanLoopFI]
    split
    · rw [ih]
      exact List.length_set w n _
    · rfl

lemma chanLoopFO_length (interp : InterpolationType) (sincs : List (List ℚ))
    (factor sl : ℕ) (buf : List ℚ) (tratio : ℚ) (count : ℕ) :
    ∀ (n : ℕ) (idx : ℚ) (w : List ℚ),
    (chanLoopFO interp sincs factor sl buf tratio count n idx w).length
      = w.length := by
  induction count with
  | zero => intro n idx w; rfl
  | succ count ih =>
    intro n idx w
    rw [chanLoopFO, ih]
    exact List.length_set w n _

/-- Exactness of the iteration budget: with a positive step and the budget
computed by `niters`, the fixed-in loop runs its budget to exhaustion, the
final cursor is the start plus `fuel` steps, and exactly `fuel` frames are
produced.  In particular the final cursor satisfies the negated loop guard,
so the budgeted loop agrees with the source's `while` loop. -/
lemma sincLoopFI_count (interp : InterpolationType) (sincs : List (List ℚ))
    (factor sl : ℕ) (used : List ℕ) (bufs : List (List ℚ))
    (endIdx tratio : ℚ) (ht : 0 < tratio) (fuel : ℕ) :
    ∀ (idx : ℚ) (n : ℕ) (wo : List (List ℚ)),
    fuel = (Int.ceil ((endIdx - idx) / tratio)).toNat →
    (sincLoopFI interp sincs factor sl used bufs endIdx tratio fuel idx n wo).1
        = idx + fuel * tratio
    ∧ (sincLoopFI interp sincs factor sl used bufs endIdx tratio fuel idx n wo).2.1
        = n + fuel := by
  induction fuel with
  | zero =>
    intro idx n wo _
    constructor
    · rw [sincLoopFI]
      push_cast
      ring
    · rfl
  | succ fuel ih =>
    intro idx n wo hfuel
    have hceil : Int.ceil ((endIdx - idx) / tratio) = fuel + 1 := by omega
    have hpos : (0 : ℚ) < (endIdx - idx) / tratio := by
      by_contra hnp
      push_neg at hnp
      have : Int.ceil ((endIdx - idx) / tratio) ≤ 0 :=
        Int.ceil_le.mpr (by exact_mod_cast hnp)
      omega
    have hguard : idx < endIdx := by
      have hnum : 0 < endIdx - idx := by
        by_contra hnn
        push_neg at hnn
        have : (endIdx - idx) / tratio ≤ 0 :=
          div_nonpos_of_nonpos_of_nonneg hnn ht.le
        linarith
      linarith
    have hnext : fuel = (Int.ceil ((endIdx - (idx + tratio)) / tratio)).toNat := by
      have harg : (endIdx - (idx + tratio)) / tratio
          = (endIdx - idx) / tratio - 1 := by
        rw [show endIdx - (idx + tratio) = (endIdx - idx) - tratio by ring,
          sub_div, div_self ht.ne']
      rw [harg, Int.ceil_sub_one, hceil]
      omega
    rw [sincLoopFI, if_pos hguard]
    obtain ⟨hidx, hn⟩ := ih (idx + tratio) (n + 1) _ hnext
    constructor
    · rw [hidx]
      push_cast
      ring
    · rw [hn]
      omega

/-- The fixed-out loop advances the cursor by exactly `count` steps. -/
lemma sincLoopFO_idx (interp : InterpolationType) (sincs : List (List ℚ))
    (factor sl : ℕ) (used : List ℕ) (bufs : List (List ℚ)) (tratio : ℚ)
    (count : ℕ) :
    ∀ (n : ℕ) (idx : ℚ) (wo : List (List ℚ)),
    (sincLoopFO interp sincs factor sl used bufs tratio count n idx wo).1
      = idx + count * tratio := by
  induction count with
  | zero =>
    intro n idx wo
    rw [sincLoopFO]
    push_cast
    ring
  | succ count ih =>
    intro n idx wo
    rw [sincLoopFO, ih]
    push_cast
    ring

lemma sincLoopFI_wo_length (interp : InterpolationType) (sincs : List (List ℚ))
    (factor sl : ℕ) (used : List ℕ) (bufs : List (List ℚ))
    (endIdx tratio : ℚ) (fuel : ℕ) :
    ∀ (idx : ℚ) (n : ℕ) (wo : List (List ℚ)),
    (sincLoopFI interp sincs factor sl used bufs endIdx tratio fuel idx n wo).2.2.length
      = wo.length := by
  induction fuel with
  | zero => intro idx n wo; rfl
  | succ fuel ih =>
    intro idx n wo
    rw [sincLoopFI]
    split
    · rw [ih, writeChans_length]
    · rfl

lemma sincLoopFO_wo_length (interp : InterpolationType) (sincs : List (List ℚ))
    (factor sl : ℕ) (used : List ℕ) (bufs : List (List ℚ)) (tratio : ℚ)
    (count : ℕ) :
    ∀ (n : ℕ) (idx : ℚ) (wo : List (List ℚ)),
    (sincLoopFO interp sincs factor sl used bufs tratio count n idx wo).2.length
      = wo.length := by
  induction count with
  | zero => intro n idx wo; rfl
  | succ count ih =>
    intro n idx wo
    rw [sincLoopFO, ih, writeChans_length]

/-- Channel projection through the fixed-in loop: an active channel's output
is the per-channel loop applied to its own slot; an inactive channel's slot is
untouched. -/
lemma sincLoopFI_getD (interp : InterpolationType) (sincs : List (List ℚ))
    (factor sl : ℕ) (used : List ℕ) (bufs : List (List ℚ))
    (endIdx tratio : ℚ) (hnd : used.Nodup) (fuel : ℕ) :
    ∀ (idx : ℚ) (n : ℕ) (wo : List (List ℚ)),
    (∀ i ∈ used, i < wo.length) →
    ∀ j,
    (sincLoopFI interp sincs factor sl used bufs endIdx tratio fuel idx n wo).2.2.getD j []
      = if j ∈ used then
          chanLoopFI interp sincs factor sl (bufs.getD j []) endIdx tratio
            fuel idx n (wo.getD j [])
        else wo.getD j [] := by
  induction fuel with
  | zero =>
    intro idx n wo hlt j
    rw [sincLoopFI, chanLoopFI]
    split <;> rfl
  | succ fuel ih =>
    intro idx n wo hlt j
    rw [sincLoopFI, chanLoopFI]
    split
    · have hlt' : ∀ i ∈ used,
          i < (writeChans interp sincs factor sl used bufs (idx + tratio) n wo).length := by
        intro i hi
        rw [writeChans_length]
        exact hlt i hi
      rw [ih (idx + tratio) (n + 1) _ hlt' j,
        writeChans_getD interp sincs factor sl used bufs (idx + tratio) n wo j hnd hlt]
      split <;> rfl
    · split <;> rfl

/-- Channel projection through the fixed-out loop. -/
lemma sincLoopFO_getD (interp : InterpolationType) (sincs : List (List ℚ))
    (factor sl : ℕ) (used : List ℕ) (bufs : List (List ℚ)) (tratio : ℚ)
    (hnd : used.Nodup) (count : ℕ) :
    ∀ (n : ℕ) (idx : ℚ) (wo : List (List ℚ)),
    (∀ i ∈ used, i < wo.length) →
    ∀ j,
    (sincLoopFO interp sincs factor sl used bufs tratio count n idx wo).2.getD j []
      = if j ∈ used then
          chanLoopFO interp sincs factor sl (bufs.getD j []) tratio
            count n idx (wo.getD j [])
        else wo.getD j [] := by
  induction count with
  | zero =>
    intro n idx wo hlt j
    rw [sincLoopFO, chanLoopFO]
    split <;> rfl
  | succ count ih =>
    intro n idx wo hlt j
    rw [sincLoopFO, chanLoopFO]
    have hlt' : ∀ i ∈ used,
        i < (writeChans interp sincs factor sl used bufs (idx + tratio) n wo).length := by
      intro i hi
      rw [writeChans_length]
      exact hlt i hi
    rw [ih (n + 1) (idx + tratio) _ hlt' j,
      writeChans_getD interp sincs factor sl used bufs (idx + tratio) n wo j hnd hlt]
    split <;> rfl

/-! ### Zero propagation (claim C8) -/

lemma get_sinc_interpolated_zero (sincs : List (List ℚ)) (wave : List ℚ)
    (i k : ℕ) (hw : ZeroWave wave) :
    get_sinc_interpolated sincs wave i k = 0 := by
  rw [get_sinc_interpolated]
  have hcut : ZeroWave ((wave.drop i).take (sincs.getD k []).length) := by
    intro x hx
    exact hw _ (List.mem_of_mem_drop (List.mem_of_mem_take hx))
  rw [fold8_zero _ _ _ hcut]
  simp [sum8]

lemma calcPoint_zero (interp : InterpolationType) (sincs : List (List ℚ))
    (factor sl : ℕ) (buf : List ℚ) (idx : ℚ) (hb : ZeroWave buf) :
    calcPoint interp sincs factor sl buf idx = 0 := by
  have hpts : ∀ (nks : List (ℤ × ℤ)),
      ZeroWave (nks.map fun nk =>
        get_sinc_interpolated sincs buf (nk.1 + 2 * (sl : ℤ)).toNat nk.2.toNat) := by
    intro nks x hx
    rw [List.mem_map] at hx
    obtain ⟨nk, _, rfl⟩ := hx
    exact get_sinc_interpolated_zero _ _ _ _ hb
  cases interp with
  | Cubic =>
    rw [calcPoint, interp_cubic]
    have h := hpts (get_nearest_times_4 idx (factor : ℤ))
    rw [h.getD_eq 0, h.getD_eq 1, h.getD_eq 2, h.getD_eq 3]
    ring
  | Linear =>
    rw [calcPoint, interp_lin]
    have h := hpts (get_nearest_times_2 idx (factor : ℤ))
    rw [h.getD_eq 0, h.getD_eq 1]
    ring
  | Nearest =>
    rw [calcPoint]
    exact get_sinc_interpolated_zero _ _ _ _ hb

lemma writeSamples_zero (buf : List ℚ) (off : ℕ) (xs : List ℚ)
    (hb : ZeroWave buf) (hx : ZeroWave xs) :
    ZeroWave (writeSamples buf off xs) := by
  induction xs generalizing buf off with
  | nil => exact hb
  | cons x rest ih =>
    rw [writeSamples]
    exact ih _ _ (hb.set (hx _ (by simp)) off) fun y hy => hx _ (by simp [hy])

lemma shiftWave_zero (shift twoL : ℕ) (w : List ℚ) (hw : ZeroWave w) :
    ZeroWave (shiftWave shift twoL w) := by
  intro x hx
  rw [shiftWave, List.mem_map] at hx
  obtain ⟨i, _, rfl⟩ := hx
  split <;> exact hw.getD_eq _

lemma sincLoopFI_zero (interp : InterpolationType) (sincs : List (List ℚ))
    (factor sl : ℕ) (used : List ℕ) (bufs : List (List ℚ))
    (endIdx tratio : ℚ) (hb : ZeroWaves bufs) (fuel : ℕ) :
    ∀ (idx : ℚ) (n : ℕ) (wo : List (List ℚ)), ZeroWaves wo →
    ZeroWaves (sincLoopFI interp sincs factor sl used bufs endIdx tratio
      fuel idx n wo).2.2 := by
  induction fuel with
  | zero => intro idx n wo hwo; exact hwo
  | succ fuel ih =>
    intro idx n wo hwo
    rw [sincLoopFI]
    split
    · refine ih _ _ _ ?_
      unfold writeChans
      exact foldlSet_zeroWaves
        (fun ch w => w.set n
          (calcPoint interp sincs factor sl (bufs.getD ch []) (idx + tratio)))
        used wo hwo fun ch w hw =>
          hw.set (calcPoint_zero interp sincs factor sl _ _ (hb.getD_mem ch)) n
    · exact hwo

lemma sincLoopFO_zero (interp : InterpolationType) (sincs : List (List ℚ))
    (factor sl : ℕ) (used : List ℕ) (bufs : List (List ℚ)) (tratio : ℚ)
    (hb : ZeroWaves bufs) (count : ℕ) :
    ∀ (n : ℕ) (idx : ℚ) (wo : List (List ℚ)), ZeroWaves wo →
    ZeroWaves (sincLoopFO interp sincs factor sl used bufs tratio
      count n idx wo).2 := by
  induction count with
  | zero => intro n idx wo hwo; exact hwo
  | succ count ih =>
    intro n idx wo hwo
    rw [sincLoopFO]
    refine ih _ _ _ ?_
    unfold writeChans
    exact foldlSet_zeroWaves
      (fun ch w => w.set n
        (calcPoint interp sincs factor sl (bufs.getD ch []) (idx + tratio)))
      used wo hwo fun ch w hw =>
        hw.set (calcPoint_zero interp sincs factor sl _ _ (hb.getD_mem ch)) n

/-! ### Projections of the per-channel buffer operations -/

lemma getD_replicate_nil (c j : ℕ) :
    (List.replicate c ([] : List ℚ)).getD j [] = [] := by
  rcases lt_or_le j c with hj | hj
  · rw [List.getD_eq_getElem?_getD,
      List.getElem?_eq_getElem (by simpa using hj), List.getElem_replicate]
    rfl
  · rw [List.getD_eq_getElem?_getD, List.getElem?_eq_none (by simpa using hj)]
    rfl

lemma initOutputs_length (used : List ℕ) (c : ℕ) (alloc : List ℚ) :
    (initOutputs used c alloc).length = c := by
  unfold initOutputs
  have := foldlSet_length (fun _ _ => alloc) used
    (List.replicate c ([] : List ℚ))
  simpa using this

lemma initOutputs_getD (used : List ℕ) (c : ℕ) (alloc : List ℚ) (j : ℕ)
    (hnd : used.Nodup) (hlt : ∀ i ∈ used, i < c) :
    (initOutputs used c alloc).getD j []
      = if j ∈ used then alloc else [] := by
  unfold initOutputs
  have h := foldlSet_getD (fun _ _ => alloc) used
    (List.replicate c ([] : List ℚ)) j hnd (by simpa using hlt)
  rw [h, getD_replicate_nil]

lemma truncUsed_length (used : List ℕ) (n : ℕ) (wo : List (List ℚ)) :
    (truncUsed used n wo).length = wo.length :=
  foldlSet_length (fun _ w => w.take n) used wo

lemma truncUsed_getD (used : List ℕ) (n : ℕ) (wo : List (List ℚ)) (j : ℕ)
    (hnd : used.Nodup) (hlt : ∀ i ∈ used, i < wo.length) :
    (truncUsed used n wo).getD j []
      = if j ∈ used then (wo.getD j []).take n else wo.getD j [] :=
  foldlSet_getD (fun _ w => w.take n) used wo j hnd hlt

lemma appendInput_length (used : List ℕ) (ws bufs : List (List ℚ)) (off : ℕ) :
    (appendInput used ws bufs off).length = bufs.length :=
  foldlSet_length (fun ch w => writeSamples w off (ws.getD ch [])) used bufs

lemma appendInput_getD (used : List ℕ) (ws bufs : List (List ℚ)) (off : ℕ)
    (j : ℕ) (hnd : used.Nodup) (hlt : ∀ i ∈ used, i < bufs.length) :
    (appendInput used ws bufs off).getD j []
      = if j ∈ used then writeSamples (bufs.getD j []) off (ws.getD j [])
        else bufs.getD j [] :=
  foldlSet_getD (fun ch w => writeSamples w off (ws.getD ch [])) used bufs j
    hnd hlt

lemma getD_ne_nil_lt {ws : List (List ℚ)} {j : ℕ} (hj : ws.getD j [] ≠ []) :
    j < ws.length := by
  by_contra h
  push_neg at h
  refine hj ?_
  rw [List.getD_eq_getElem?_getD, List.getElem?_eq_none (by omega)]
  rfl

/-! ### Claim C2: fixed-out length contract -/

/-- C2: on a valid call, every active channel of `SincFixedOut::process` gets
an output of length exactly `chunk_size`. -/
theorem C2_fixedout_length (s : SincFixedOut) (ws : List (List ℚ)) (j : ℕ)
    (h1 : ws.length = s.nbr_channels)
    (h2 : ∀ w ∈ ws, w ≠ [] → w.length = s.needed_input_size)
    (hj : ws.getD j [] ≠ []) :
    (s.process ws).2.isOk = true
    ∧ ∀ outs, (s.process ws).2 = .ok outs →
        (outs.getD j []).length = s.chunk_size := by
  rw [processFO_valid s ws h1 h2, SincFixedOut.processCore]
  refine ⟨rfl, ?_⟩
  intro outs houts
  cases Except.ok.inj houts
  have hjlt : j < ws.length := getD_ne_nil_lt hj
  have hjused : j ∈ usedChannels ws := mem_usedChannels.mpr ⟨hjlt, hj⟩
  have hlt : ∀ i ∈ usedChannels ws,
      i < (initOutputs (usedChannels ws) s.nbr_channels
        (List.replicate s.chunk_size (0 : ℚ))).length := by
    intro i hi
    rw [initOutputs_length]
    exact h1 ▸ (mem_usedChannels.mp hi).1
  rw [sincLoopFO_getD _ _ _ _ _ _ _ (usedChannels_nodup ws) _ _ _ _ hlt j,
    if_pos hjused, chanLoopFO_length,
    initOutputs_getD _ _ _ _ (usedChannels_nodup ws)
      (fun i hi => h1 ▸ (mem_usedChannels.mp hi).1),
    if_pos hjused, List.length_replicate]

theorem C2_fixedout_length_witness :
    ([List.replicate 10 (0 : ℚ)].length = exFO.nbr_channels)
    ∧ (∀ w ∈ [List.replicate 10 (0 : ℚ)], w ≠ [] →
        w.length = exFO.needed_input_size)
    ∧ ([List.replicate 10 (0 : ℚ)].getD 0 [] ≠ [])
    ∧ ((exFO.process [List.replicate 10 (0 : ℚ)]).2.isOk = true
      ∧ ∀ outs, (exFO.process [List.replicate 10 (0 : ℚ)]).2 = .ok outs →
          (outs.getD 0 []).length = exFO.chunk_size) :=
  ⟨by decide, by decide, by decide,
   C2_fixedout_length exFO [List.replicate 10 (0 : ℚ)] 0
     (by decide) (by decide) (by decide)⟩

/-- The cursor-and-counter skeleton of the fixed-in `while` loop: it depends
only on the loop bound, the step, and the starting cursor/counter — not on the
audio data. -/
def cursorLoop (endIdx tratio : ℚ) : ℕ → ℚ → ℕ → ℚ × ℕ
  | 0, idx, n => (idx, n)
  | fuel + 1, idx, n =>
    if idx < endIdx then cursorLoop endIdx tratio fuel (idx + tratio) (n + 1)
    else (idx, n)

/-- The fixed-in loop's final cursor and frame counter equal the data-free
cursor skeleton: they do not depend on the channels, histories or outputs. -/
lemma sincLoopFI_cursor (interp : InterpolationType) (sincs : List (List ℚ))
    (factor sl : ℕ) (used : List ℕ) (bufs : List (List ℚ))
    (endIdx tratio : ℚ) (fuel : ℕ) :
    ∀ (idx : ℚ) (n : ℕ) (wo : List (List ℚ)),
    ((sincLoopFI interp sincs factor sl used bufs endIdx tratio fuel idx n wo).1,
     (sincLoopFI interp sincs factor sl used bufs endIdx tratio fuel idx n wo).2.1)
      = cursorLoop endIdx tratio fuel idx n := by
  induction fuel with
  | zero => intro idx n wo; rfl
  | succ fuel ih =>
    intro idx n wo
    rw [sincLoopFI, cursorLoop]
    split
    · exact ih _ _ _
    · rfl

/-- Per-channel characterisation of the fixed-in output: on a shape-valid
input (and a well-formed buffer, one history per channel), output channel `j`
is empty when the input channel is empty, and otherwise is the per-channel
loop run over channel `j`'s shifted-and-refilled history, truncated to the
produced frame count.  Everything channel `j` receives depends only on
channel `j`'s input. -/
lemma processFICore_out_getD (s : SincFixedIn)
    (ws : List (List ℚ)) (j : ℕ) (hlen : ws.length = s.nbr_channels)
    (hbuf : s.buffer.length = s.nbr_channels) :
    (s.processCore ws).2.map (fun o => o.getD j [])
      = .ok (if j ∈ usedChannels ws then
          (chanLoopFI s.interpolation s.sincs s.oversampling_factor s.sinc_len
            (writeSamples
              ((s.buffer.map (shiftWave s.chunk_size (2 * s.sinc_len))).getD j [])
              (2 * s.sinc_len) (ws.getD j []))
            ((s.chunk_size : ℚ) - ((s.sinc_len : ℚ) + 1)) (1 / s.resample_ratio)
            (niters ((s.chunk_size : ℚ) - ((s.sinc_len : ℚ) + 1)) s.last_index
              (1 / s.resample_ratio))
            s.last_index 0
            (List.replicate
              ((Int.floor ((s.chunk_size : ℚ) * s.resample_ratio + 10)).toNat)
              (0 : ℚ))).take
            (cursorLoop ((s.chunk_size : ℚ) - ((s.sinc_len : ℚ) + 1))
              (1 / s.resample_ratio)
              (niters ((s.chunk_size : ℚ) - ((s.sinc_len : ℚ) + 1)) s.last_index
                (1 / s.resample_ratio))
              s.last_index 0).2
        else []) := by
  rw [SincFixedIn.processCore]
  have hnd := usedChannels_nodup ws
  have hmemlt : ∀ i ∈ usedChannels ws, i < s.nbr_channels := by
    intro i hi
    exact hlen ▸ (mem_usedChannels.mp hi).1
  have hwo0 : ∀ i ∈ usedChannels ws,
      i < (initOutputs (usedChannels ws) s.nbr_channels
        (List.replicate
          ((Int.floor ((s.chunk_size : ℚ) * s.resample_ratio + 10)).toNat)
          (0 : ℚ))).length := by
    intro i hi
    rw [initOutputs_length]
    exact hmemlt i hi
  have hres : ∀ i ∈ usedChannels ws,
      i < (sincLoopFI s.interpolation s.sincs s.oversampling_factor s.sinc_len
        (usedChannels ws)
        (appendInput (usedChannels ws) ws
          (s.buffer.map (shiftWave s.chunk_size (2 * s.sinc_len)))
          (2 * s.sinc_len))
        ((s.chunk_size : ℚ) - ((s.sinc_len : ℚ) + 1)) (1 / s.resample_ratio)
        (niters ((s.chunk_size : ℚ) - ((s.sinc_len : ℚ) + 1)) s.last_index
          (1 / s.resample_ratio))
        s.last_index 0
        (initOutputs (usedChannels ws) s.nbr_channels
          (List.replicate
            ((Int.floor ((s.chunk_size : ℚ) * s.resample_ratio + 10)).toNat)
            (0 : ℚ)))).2.2.length := by
    intro i hi
    rw [sincLoopFI_wo_length, initOutputs_length]
    exact hmemlt i hi
  have hshift : ∀ i ∈ usedChannels ws,
      i < (s.buffer.map (shiftWave s.chunk_size (2 * s.sinc_len))).length := by
    intro i hi
    rw [List.length_map, hbuf]
    exact hmemlt i hi
  simp only [Except.map]
  congr 1
  rw [truncUsed_getD _ _ _ _ hnd hres,
    sincLoopFI_getD _ _ _ _ _ _ _ _ hnd _ _ _ _ hwo0 j,
    initOutputs_getD _ _ _ _ hnd hmemlt,
    appendInput_getD _ _ _ _ _ hnd hshift,
    ← sincLoopFI_cursor s.interpolation s.sincs s.oversampling_factor s.sinc_len
      (usedChannels ws)
      (appendInput (usedChannels ws) ws
        (s.buffer.map (shiftWave s.chunk_size (2 * s.sinc_len)))
        (2 * s.sinc_len))
      ((s.chunk_size : ℚ) - ((s.sinc_len : ℚ) + 1)) (1 / s.resample_ratio) _
      s.last_index 0
      (initOutputs (usedChannels ws) s.nbr_channels
        (List.replicate
          ((Int.floor ((s.chunk_size : ℚ) * s.resample_ratio + 10)).toNat)
          (0 : ℚ)))]
  split
  · rfl
  · rfl

/-- Per-channel characterisation of the fixed-out output, analogous to the
fixed-in one: empty input channel gives empty output, active channel `j`'s
output is the per-channel loop over channel `j`'s refilled history. -/
lemma processFOCore_out_getD (s : SincFixedOut)
    (vs : List (List ℚ)) (j : ℕ) (hlen : vs.length = s.nbr_channels)
    (hbuf : s.buffer.length = s.nbr_channels) :
    (s.processCore vs).2.map (fun o => o.getD j [])
      = .ok (if j ∈ usedChannels vs then
          chanLoopFO s.interpolation s.sincs s.oversampling_factor s.sinc_len
            (writeSamples
              ((s.buffer.map (shiftWave s.current_buffer_fill (2 * s.sinc_len))).getD j [])
              (2 * s.sinc_len) (vs.getD j []))
            (1 / s.resample_ratio) s.chunk_size 0 s.last_index
            (List.replicate s.chunk_size (0 : ℚ))
        else []) := by
  rw [SincFixedOut.processCore]
  have hnd := usedChannels_nodup vs
  have hmemlt : ∀ i ∈ usedChannels vs, i < s.nbr_channels := by
    intro i hi
    exact hlen ▸ (mem_usedChannels.mp hi).1
  have hwo0 : ∀ i ∈ usedChannels vs,
      i < (initOutputs (usedChannels vs) s.nbr_channels
        (List.replicate s.chunk_size (0 : ℚ))).length := by
    intro i hi
    rw [initOutputs_length]
    exact hmemlt i hi
  have hshift : ∀ i ∈ usedChannels vs,
      i < (s.buffer.map (shiftWave s.current_buffer_fill (2 * s.sinc_len))).length := by
    intro i hi
    rw [List.length_map, hbuf]
    exact hmemlt i hi
  simp only [Except.map]
  congr 1
  rw [sincLoopFO_getD _ _ _ _ _ _ _ hnd _ _ _ _ hwo0 j,
    initOutputs_getD _ _ _ _ hnd hmemlt,
    appendInput_getD _ _ _ _ _ hnd hshift]
  split
  · rfl
  · rfl

lemma getD_set_ne {ws : List (List ℚ)} {c j : ℕ} (v : List ℚ) (hj : j ≠ c) :
    (ws.set c v).getD j [] = ws.getD j [] := by
  rw [List.getD_eq_getElem?_getD, List.getElem?_set_ne (fun h => hj h.symm),
    ← List.getD_eq_getElem?_getD]

lemma mem_usedChannels_set {ws : List (List ℚ)} {c j : ℕ} (v : List ℚ)
    (hj : j ≠ c) :
    (j ∈ usedChannels (ws.set c v)) ↔ j ∈ usedChannels ws := by
  rw [mem_usedChannels, mem_usedChannels, List.length_set, getD_set_ne v hj]

/-- C6: an empty input channel yields an empty output channel, and replacing
an empty channel `c` by arbitrary correct-length data does not change any
other channel's output — for both drivers. -/
theorem C6_channel_skip (sI : SincFixedIn) (sO : SincFixedOut)
    (ws vs : List (List ℚ)) (c j : ℕ) (v u : List ℚ)
    (hIbuf : sI.buffer.length = sI.nbr_channels)
    (hI1 : ws.length = sI.nbr_channels)
    (hI2 : ∀ w ∈ ws, w ≠ [] → w.length = sI.chunk_size)
    (hIc : ws.getD c [] = [])
    (hIvlen : v.length = sI.chunk_size)
    (hObuf : sO.buffer.length = sO.nbr_channels)
    (hO1 : vs.length = sO.nbr_channels)
    (hO2 : ∀ w ∈ vs, w ≠ [] → w.length = sO.needed_input_size)
    (hOc : vs.getD c [] = [])
    (hOulen : u.length = sO.needed_input_size) :
    ((sI.process ws).2.map (fun o => o.getD c []) = .ok [])
    ∧ (j ≠ c →
        (sI.process ws).2.map (fun o => o.getD j [])
          = (sI.process (ws.set c v)).2.map (fun o => o.getD j []))
    ∧ ((sO.process vs).2.map (fun o => o.getD c []) = .ok [])
    ∧ (j ≠ c →
        (sO.process vs).2.map (fun o => o.getD j [])
          = (sO.process (vs.set c u)).2.map (fun o => o.getD j [])) := by
  have hI2' : ∀ w ∈ ws.set c v, w ≠ [] → w.length = sI.chunk_size := by
    intro w hw hne
    rcases List.mem_or_eq_of_mem_set hw with h | h
    · exact hI2 w h hne
    · rw [h, hIvlen]
  have hO2' : ∀ w ∈ vs.set c u, w ≠ [] → w.length = sO.needed_input_size := by
    intro w hw hne
    rcases List.mem_or_eq_of_mem_set hw with h | h
    · exact hO2 w h hne
    · rw [h, hOulen]
  have hIcnot : c ∉ usedChannels ws := by
    intro hmem
    exact (mem_usedChannels.mp hmem).2 hIc
  have hOcnot : c ∉ usedChannels vs := by
    intro hmem
    exact (mem_usedChannels.mp hmem).2 hOc
  refine ⟨?_, ?_, ?_, ?_⟩
  · rw [processFI_valid sI ws hI1 hI2,
      processFICore_out_getD sI ws c hI1 hIbuf, if_neg hIcnot]
  · intro hj
    rw [processFI_valid sI ws hI1 hI2,
      processFI_valid sI (ws.set c v)
        (by rw [List.length_set]; exact hI1) hI2',
      processFICore_out_getD sI ws j hI1 hIbuf,
      processFICore_out_getD sI (ws.set c v) j
        (by rw [List.length_set]; exact hI1) hIbuf,
      getD_set_ne v hj]
    by_cases hmem : j ∈ usedChannels ws
    · rw [if_pos hmem, if_pos ((mem_usedChannels_set v hj).mpr hmem)]
    · rw [if_neg hmem, if_neg (fun h => hmem ((mem_usedChannels_set v hj).mp h))]
  · rw [processFO_valid sO vs hO1 hO2,
      processFOCore_out_getD sO vs c hO1 hObuf, if_neg hOcnot]
  · intro hj
    rw [processFO_valid sO vs hO1 hO2,
      processFO_valid sO (vs.set c u)
        (by rw [List.length_set]; exact hO1) hO2',
      processFOCore_out_getD sO vs j hO1 hObuf,
      processFOCore_out_getD sO (vs.set c u) j
        (by rw [List.length_set]; exact hO1) hObuf,
      getD_set_ne u hj]
    by_cases hmem : j ∈ usedChannels vs
    · rw [if_pos hmem, if_pos ((mem_usedChannels_set u hj).mpr hmem)]
    · rw [if_neg hmem, if_neg (fun h => hmem ((mem_usedChannels_set u hj).mp h))]

/-- Two-channel variant of `exFI` (chunk 16). -/
def exFI2 : SincFixedIn := SincFixedIn.new 1 8 1 .Nearest exSincs 16 2

/-- Two-channel variant of `exFO` (chunk 4, `needed_input_size` 10). -/
def exFO2 : SincFixedOut :=
  { exFO with
      nbr_channels := 2
      buffer := List.replicate 2 (List.replicate 31 (0 : ℚ)) }

theorem C6_channel_skip_witness :
    (exFI2.buffer.length = exFI2.nbr_channels)
    ∧ ([List.replicate 16 (0 : ℚ), []].length = exFI2.nbr_channels)
    ∧ (∀ w ∈ [List.replicate 16 (0 : ℚ), []], w ≠ [] →
        w.length = exFI2.chunk_size)
    ∧ ([List.replicate 16 (0 : ℚ), []].getD 1 [] = [])
    ∧ ((List.replicate 16 (3 : ℚ)).length = exFI2.chunk_size)
    ∧ (exFO2.buffer.length = exFO2.nbr_channels)
    ∧ ([List.replicate 10 (0 : ℚ), []].length = exFO2.nbr_channels)
    ∧ (∀ w ∈ [List.replicate 10 (0 : ℚ), []], w ≠ [] →
        w.length = exFO2.needed_input_size)
    ∧ ([List.replicate 10 (0 : ℚ), []].getD 1 [] = [])
    ∧ ((List.replicate 10 (5 : ℚ)).length = exFO2.needed_input_size)
    ∧ (((exFI2.process [List.replicate 16 (0 : ℚ), []]).2.map
          (fun o => o.getD 1 []) = .ok [])
      ∧ (0 ≠ 1 →
          (exFI2.process [List.replicate 16 (0 : ℚ), []]).2.map
              (fun o => o.getD 0 [])
            = (exFI2.process
                ([List.replicate 16 (0 : ℚ), []].set 1
                  (List.replicate 16 (3 : ℚ)))).2.map (fun o => o.getD 0 []))
      ∧ ((exFO2.process [List.replicate 10 (0 : ℚ), []]).2.map
          (fun o => o.getD 1 []) = .ok [])
      ∧ (0 ≠ 1 →
          (exFO2.process [List.replicate 10 (0 : ℚ), []]).2.map
              (fun o => o.getD 0 [])
            = (exFO2.process
                ([List.replicate 10 (0 : ℚ), []].set 1
                  (List.replicate 10 (5 : ℚ)))).2.map (fun o => o.getD 0 []))) :=
  ⟨by decide, by decide, by decide, by decide, by decide, by decide, by decide,
   by decide, by decide, by decide,
   C6_channel_skip exFI2 exFO2 [List.replicate 16 (0 : ℚ), []]
     [List.replicate 10 (0 : ℚ), []] 1 0 (List.replicate 16 (3 : ℚ))
     (List.replicate 10 (5 : ℚ)) (by decide) (by decide) (by decide) (by decide)
     (by decide) (by decide) (by decide) (by decide) (by decide) (by decide)⟩

/-! ### Claim C10: all-channels-muted call still advances the stream -/

lemma usedChannels_replicate_nil (c : ℕ) :
    usedChannels (List.replicate c ([] : List ℚ)) = [] := by
  unfold usedChannels
  rw [List.filter_eq_nil_iff]
  intro a _
  rw [getD_replicate_nil]
  simp

lemma sincLoopFI_nil_used (interp : InterpolationType) (sincs : List (List ℚ))
    (factor sl : ℕ) (bufs : List (List ℚ)) (endIdx tratio : ℚ) (fuel : ℕ) :
    ∀ (idx : ℚ) (n : ℕ) (wo : List (List ℚ)),
    (sincLoopFI interp sincs factor sl [] bufs endIdx tratio fuel idx n wo).2.2
      = wo := by
  induction fuel with
  | zero => intro idx n wo; rfl
  | succ fuel ih =>
    intro idx n wo
    rw [sincLoopFI]
    split
    · exact ih _ _ _
    · rfl

/-- C10: a fixed-in `process` call in which every channel is muted (empty)
succeeds with an all-empty output vector, yet still shifts every channel's
history and advances `last_index` through exactly the same cursor recursion
(`cursorLoop`, a function of `chunk_size`, `sinc_len`, `last_index` and
`resample_ratio` alone) as a call with valid non-empty input data. -/
theorem C10_all_empty_frame_effect (s : SincFixedIn) (ws : List (List ℚ))
    (h1 : ws.length = s.nbr_channels)
    (h2 : ∀ w ∈ ws, w ≠ [] ∧ w.length = s.chunk_size) :
    ((s.process (List.replicate s.nbr_channels [])).2
        = .ok (List.replicate s.nbr_channels []))
    ∧ (s.process (List.replicate s.nbr_channels [])).1.buffer
        = s.buffer.map (shiftWave s.chunk_size (2 * s.sinc_len))
    ∧ (s.process (List.replicate s.nbr_channels [])).1.last_index
        = (cursorLoop ((s.chunk_size : ℚ) - ((s.sinc_len : ℚ) + 1))
            (1 / s.resample_ratio)
            (niters ((s.chunk_size : ℚ) - ((s.sinc_len : ℚ) + 1)) s.last_index
              (1 / s.resample_ratio))
            s.last_index 0).1 - (s.chunk_size : ℚ)
    ∧ (s.process (List.replicate s.nbr_channels [])).1.last_index
        = (s.process ws).1.last_index := by
  have hvalid0 : ∀ w ∈ List.replicate s.nbr_channels ([] : List ℚ),
      w ≠ [] → w.length = s.chunk_size := by
    intro w hw hne
    exact absurd (List.eq_of_mem_replicate hw) hne
  have hred0 := processFI_valid s (List.replicate s.nbr_channels [])
    (by rw [List.length_replicate]) hvalid0
  have hredw := processFI_valid s ws h1
    (fun w hw _ => (h2 w hw).2)
  rw [hred0, hredw, SincFixedIn.processCore, SincFixedIn.processCore,
    usedChannels_replicate_nil]
  refine ⟨?_, rfl, ?_, ?_⟩
  · rw [sincLoopFI_nil_used]
    rfl
  · exact congrArg (fun x : ℚ => x - (s.chunk_size : ℚ))
      (congrArg Prod.fst (sincLoopFI_cursor _ _ _ _ _ _ _ _ _ _ _ _))
  · exact congrArg (fun x : ℚ => x - (s.chunk_size : ℚ))
      ((congrArg Prod.fst (sincLoopFI_cursor _ _ _ _ _ _ _ _ _ _ _ _)).trans
        (congrArg Prod.fst (sincLoopFI_cursor _ _ _ _ _ _ _ _ _ _ _ _)).symm)

theorem C10_all_empty_frame_effect_witness :
    ([List.replicate 16 (1 : ℚ)].length = exFI.nbr_channels)
    ∧ (∀ w ∈ [List.replicate 16 (1 : ℚ)], w ≠ [] ∧ w.length = exFI.chunk_size)
    ∧ (((exFI.process (List.replicate exFI.nbr_channels [])).2
          = .ok (List.replicate exFI.nbr_channels []))
      ∧ (exFI.process (List.replicate exFI.nbr_channels [])).1.buffer
          = exFI.buffer.map (shiftWave exFI.chunk_size (2 * exFI.sinc_len))
      ∧ (exFI.process (List.replicate exFI.nbr_channels [])).1.last_index
          = (cursorLoop ((exFI.chunk_size : ℚ) - ((exFI.sinc_len : ℚ) + 1))
              (1 / exFI.resample_ratio)
              (niters ((exFI.chunk_size : ℚ) - ((exFI.sinc_len : ℚ) + 1))
                exFI.last_index (1 / exFI.resample_ratio))
              exFI.last_index 0).1 - (exFI.chunk_size : ℚ)
      ∧ (exFI.process (List.replicate exFI.nbr_channels [])).1.last_index
          = (exFI.process [List.replicate 16 (1 : ℚ)]).1.last_index) :=
  ⟨by decide, by decide,
   C10_all_empty_frame_effect exFI [List.replicate 16 (1 : ℚ)]
     (by decide) (by decide)⟩

/-! ### Claim C8: silence in, silence out -/

lemma zeroWave_replicate (n : ℕ) : ZeroWave (List.replicate n (0 : ℚ)) :=
  fun _ hx => List.eq_of_mem_replicate hx

lemma zeroWaves_replicate (c n : ℕ) :
    ZeroWaves (List.replicate c (List.replicate n (0 : ℚ))) := fun _ hw =>
  (List.eq_of_mem_replicate hw) ▸ zeroWave_replicate n

lemma zeroWaves_shifted (shift twoL : ℕ) (bufs : List (List ℚ))
    (hb : ZeroWaves bufs) :
    ZeroWaves (bufs.map (shiftWave shift twoL)) := by
  intro w hw
  rw [List.mem_map] at hw
  obtain ⟨w0, hw0, rfl⟩ := hw
  exact shiftWave_zero _ _ _ (hb _ hw0)

lemma zeroWaves_appendInput (used : List ℕ) (ws bufs : List (List ℚ))
    (off : ℕ) (hb : ZeroWaves bufs) (hws : ZeroWaves ws) :
    ZeroWaves (appendInput used ws bufs off) := by
  unfold appendInput
  exact foldlSet_zeroWaves (fun ch w => writeSamples w off (ws.getD ch []))
    used bufs hb fun ch w hw => writeSamples_zero w off _ hw (hws.getD_mem ch)

lemma zeroWaves_initOutputs (used : List ℕ) (c n : ℕ) :
    ZeroWaves (initOutputs used c (List.replicate n (0 : ℚ))) := by
  unfold initOutputs
  refine foldlSet_zeroWaves (fun _ _ => List.replicate n (0 : ℚ)) used
    (List.replicate c []) (fun w hw => ?_) fun _ _ _ => zeroWave_replicate n
  rw [List.eq_of_mem_replicate hw]
  intro x hx
  cases hx

lemma zeroWaves_truncUsed (used : List ℕ) (n : ℕ) (wo : List (List ℚ))
    (hw : ZeroWaves wo) : ZeroWaves (truncUsed used n wo) := by
  unfold truncUsed
  exact foldlSet_zeroWaves (fun _ w => w.take n) used wo hw
    fun _ _ hzw x hx => hzw _ (List.mem_of_mem_take hx)

/-- C8: for both drivers, construction produces an all-zero history; a
`process` call whose input channels are all zero (or empty) keeps the history
all-zero and, when it succeeds, returns an all-zero output — hence by
induction silence in yields exact silence out over any number of chunks. -/
theorem C8_silence (s : SincFixedIn) (t : SincFixedOut)
    (ws vs : List (List ℚ)) (r1 : ℚ) (slp ov ch nb : ℕ)
    (itp : InterpolationType) (sk : List (List ℚ))
    (hI : ZeroWaves s.buffer) (hws : ZeroWaves ws)
    (hO : ZeroWaves t.buffer) (hvs : ZeroWaves vs) :
    ZeroWaves (SincFixedIn.new r1 slp ov itp sk ch nb).buffer
    ∧ ZeroWaves (SincFixedOut.new r1 slp ov itp sk ch nb).buffer
    ∧ ZeroWaves (s.process ws).1.buffer
    ∧ (∀ outs, (s.process ws).2 = .ok outs → ZeroWaves outs)
    ∧ ZeroWaves (t.process vs).1.buffer
    ∧ (∀ outs, (t.process vs).2 = .ok outs → ZeroWaves outs) := by
  refine ⟨zeroWaves_replicate _ _, zeroWaves_replicate _ _, ?_, ?_, ?_, ?_⟩
  · rw [SincFixedIn.process]
    split_ifs
    · exact hI
    · exact hI
    · rw [SincFixedIn.processCore]
      exact zeroWaves_appendInput _ _ _ _
        (zeroWaves_shifted _ _ _ hI) hws
  · intro outs houts
    rw [SincFixedIn.process] at houts
    split_ifs at houts
    rw [SincFixedIn.processCore] at houts
    cases Except.ok.inj houts
    refine zeroWaves_truncUsed _ _ _ ?_
    exact sincLoopFI_zero _ _ _ _ _ _ _ _
      (zeroWaves_appendInput _ _ _ _ (zeroWaves_shifted _ _ _ hI) hws)
      _ _ _ _ (zeroWaves_initOutputs _ _ _)
  · rw [SincFixedOut.process]
    split_ifs
    · exact hO
    · exact hO
    · rw [SincFixedOut.processCore]
      exact zeroWaves_appendInput _ _ _ _
        (zeroWaves_shifted _ _ _ hO) hvs
  · intro outs houts
    rw [SincFixedOut.process] at houts
    split_ifs at houts
    rw [SincFixedOut.processCore] at houts
    cases Except.ok.inj houts
    exact sincLoopFO_zero _ _ _ _ _ _ _
      (zeroWaves_appendInput _ _ _ _ (zeroWaves_shifted _ _ _ hO) hvs)
      _ _ _ _ (zeroWaves_initOutputs _ _ _)

theorem C8_silence_witness :
    ZeroWaves exFI.buffer
    ∧ ZeroWaves [List.replicate 16 (0 : ℚ)]
    ∧ ZeroWaves exFO.buffer
    ∧ ZeroWaves [List.replicate 10 (0 : ℚ)]
    ∧ (ZeroWaves (SincFixedIn.new 1 8 1 .Nearest exSincs 4 1).buffer
      ∧ ZeroWaves (SincFixedOut.new 1 8 1 .Nearest exSincs 4 1).buffer
      ∧ ZeroWaves (exFI.process [List.replicate 16 (0 : ℚ)]).1.buffer
      ∧ (∀ outs, (exFI.process [List.replicate 16 (0 : ℚ)]).2 = .ok outs →
          ZeroWaves outs)
      ∧ ZeroWaves (exFO.process [List.replicate 10 (0 : ℚ)]).1.buffer
      ∧ (∀ outs, (exFO.process [List.replicate 10 (0 : ℚ)]).2 = .ok outs →
          ZeroWaves outs)) :=
  ⟨zeroWaves_replicate 1 32, zeroWaves_replicate 1 16,
   zeroWaves_replicate 1 31, zeroWaves_replicate 1 10,
   C8_silence exFI exFO [List.replicate 16 (0 : ℚ)] [List.replicate 10 (0 : ℚ)]
     1 8 1 4 1 .Nearest exSincs
     (zeroWaves_replicate 1 32) (zeroWaves_replicate 1 16)
     (zeroWaves_replicate 1 31) (zeroWaves_replicate 1 10)⟩

/-! ### Claim C7: idempotence of ratio updates -/

/-- The bookkeeping invariant of the fixed-out driver: `needed_input_size`
agrees with the update formula at the current cursor and ratio.  It holds
after construction (for a positive ratio) and after every `process` or
successful `set_resample_ratio`. -/
def FOConsistent (s : SincFixedOut) : Prop :=
  s.needed_input_size
    = neededInputFor s.last_index s.chunk_size s.resample_ratio s.sinc_len

/-- Construction of the fixed-out driver establishes the bookkeeping
invariant: `ceil(chunk/r) + 2 + L/2 = ceil(-(L/2) + chunk/r + L) + 2`
because `L` is even and the integer `L/2` moves through the ceiling. -/
lemma FOConsistent_new (r : ℚ) (slp ov ch nb : ℕ) (itp : InterpolationType)
    (sk : List (List ℚ)) (hr : 0 < r) :
    FOConsistent (SincFixedOut.new r slp ov itp sk ch nb) := by
  simp only [FOConsistent, SincFixedOut.new, neededInputFor]
  obtain ⟨m, hm⟩ : ∃ m, 8 * ((slp + 7) / 8) = 2 * m :=
    ⟨4 * ((slp + 7) / 8), by ring⟩
  rw [hm]
  have h22 : 2 * m / 2 = m := by omega
  rw [h22]
  have harg : -((m : ℕ) : ℚ) + (ch : ℚ) / r + ((2 * m : ℕ) : ℚ)
      = (ch : ℚ) / r + (((m : ℤ)) : ℚ) := by
    push_cast
    ring
  rw [harg, Int.ceil_add_int]
  have hnn : (0 : ℤ) ≤ ⌈(ch : ℚ) / r⌉ := by
    have hq : (0 : ℚ) ≤ (ch : ℚ) / r := by positivity
    exact Int.ceil_nonneg hq
  omega

/-- C7 (amended): `set_resample_ratio` is idempotent on both drivers, and
`set_resample_ratio_relative(1.0)` leaves the state unchanged provided the
current ratio equals the original — for the fixed-output driver additionally
under its `FOConsistent` bookkeeping invariant, which construction (with a
positive ratio) establishes and every `process` call and ratio update
preserves.  (Without the ratio proviso, `set_resample_ratio_relative(1.0)`
resets the ratio to the original, so it is not a no-op in general; see the
counterexample.) -/
theorem C7_ratio_update_idempotent_amended :
    (∀ (sI : SincFixedIn) (x : ℚ),
       (sI.set_resample_ratio x).1.set_resample_ratio x
         = sI.set_resample_ratio x)
    ∧ (∀ (sO : SincFixedOut) (x : ℚ),
       (sO.set_resample_ratio x).1.set_resample_ratio x
         = sO.set_resample_ratio x)
    ∧ (∀ sI : SincFixedIn, sI.resample_ratio = sI.resample_ratio_original →
       (sI.set_resample_ratio_relative 1).1 = sI)
    ∧ (∀ sO : SincFixedOut, sO.resample_ratio = sO.resample_ratio_original →
       FOConsistent sO → (sO.set_resample_ratio_relative 1).1 = sO)
    ∧ (∀ (r : ℚ) (slp ov ch nb : ℕ) (itp : InterpolationType)
         (sk : List (List ℚ)),
       0 < r → FOConsistent (SincFixedOut.new r slp ov itp sk ch nb))
    ∧ (∀ (sO : SincFixedOut) (vs : List (List ℚ)),
       FOConsistent sO → FOConsistent (sO.process vs).1)
    ∧ (∀ (sO : SincFixedOut) (x : ℚ),
       FOConsistent sO → FOConsistent (sO.set_resample_ratio x).1) := by
  refine ⟨?_, ?_, ?_, ?_, ?_, ?_, ?_⟩
  · intro sI x
    unfold SincFixedIn.set_resample_ratio
    split_ifs <;> rfl
  · intro sO x
    unfold SincFixedOut.set_resample_ratio
    split_ifs <;> rfl
  · intro sI h
    unfold SincFixedIn.set_resample_ratio_relative SincFixedIn.set_resample_ratio
    split_ifs with h1
    · rw [show sI.resample_ratio_original * 1 = sI.resample_ratio by
        rw [mul_one, h]]
    · rfl
  · intro sO h hc
    unfold SincFixedOut.set_resample_ratio_relative SincFixedOut.set_resample_ratio
    split_ifs with h1
    · rw [show sO.resample_ratio_original * 1 = sO.resample_ratio by
        rw [mul_one, h], ← hc]
    · rfl
  · intro r slp ov ch nb itp sk hr
    exact FOConsistent_new r slp ov ch nb itp sk hr
  · intro sO vs hc
    rw [SincFixedOut.process]
    split_ifs
    · exact hc
    · exact hc
    · rw [SincFixedOut.processCore]
      rfl
  · intro sO x hc
    unfold SincFixedOut.set_resample_ratio
    split_ifs
    · rfl
    · exact hc

/-- A reachable fixed-in driver whose current ratio differs from the
original: `exFI` after the legal (+5 %) update `set_resample_ratio(21/20)`. -/
def exFIr : SincFixedIn := (exFI.set_resample_ratio (21 / 20)).1

theorem C7_set_relative_cex :
    exFIr.resample_ratio = 21 / 20
    ∧ (exFIr.set_resample_ratio_relative 1).1.resample_ratio = 1
    ∧ ((21 : ℚ) / 20 ≠ 1) := by
  have h1 : exFIr = { exFI with resample_ratio := 21 / 20 } := by
    unfold exFIr SincFixedIn.set_resample_ratio
    rw [if_pos]
    constructor <;> norm_num [exFI, SincFixedIn.new]
  refine ⟨by rw [h1], ?_, by norm_num⟩
  rw [SincFixedIn.set_resample_ratio_relative, SincFixedIn.set_resample_ratio,
    if_pos]
  · rw [h1]
    norm_num [exFI, SincFixedIn.new]
  · rw [h1]
    constructor <;> norm_num [exFI, SincFixedIn.new]

theorem C7_ratio_update_idempotent_amended_witness :
    (exFO.resample_ratio = exFO.resample_ratio_original)
    ∧ FOConsistent exFO
    ∧ (exFO.set_resample_ratio_relative 1).1 = exFO :=
  ⟨rfl, by norm_num [FOConsistent, neededInputFor, exFO]; omega,
   C7_ratio_update_idempotent_amended.2.2.2.1 exFO rfl
     (by norm_num [FOConsistent, neededInputFor, exFO]; omega)⟩

/-! ### Claim C1: fixed-in length contract -/

/-- Cursor-skeleton analogue of `sincLoopFI_count`: with a positive step and
the exact budget, the skeleton runs the budget to exhaustion. -/
lemma cursorLoop_count (endIdx tratio : ℚ) (ht : 0 < tratio) (fuel : ℕ) :
    ∀ (idx : ℚ) (n : ℕ),
    fuel = (Int.ceil ((endIdx - idx) / tratio)).toNat →
    (cursorLoop endIdx tratio fuel idx n).1 = idx + fuel * tratio
    ∧ (cursorLoop endIdx tratio fuel idx n).2 = n + fuel := by
  induction fuel with
  | zero =>
    intro idx n _
    constructor
    · rw [cursorLoop]
      push_cast
      ring
    · rfl
  | succ fuel ih =>
    intro idx n hfuel
    have hceil : Int.ceil ((endIdx - idx) / tratio) = fuel + 1 := by omega
    have hpos : (0 : ℚ) < (endIdx - idx) / tratio := by
      by_contra hnp
      push_neg at hnp
      have : Int.ceil ((endIdx - idx) / tratio) ≤ 0 :=
        Int.ceil_le.mpr (by exact_mod_cast hnp)
      omega
    have hguard : idx < endIdx := by
      have hnum : 0 < endIdx - idx := by
        by_contra hnn
        push_neg at hnn
        have : (endIdx - idx) / tratio ≤ 0 :=
          div_nonpos_of_nonpos_of_nonneg hnn ht.le
        linarith
      linarith
    have hnext : fuel = (Int.ceil ((endIdx - (idx + tratio)) / tratio)).toNat := by
      have harg : (endIdx - (idx + tratio)) / tratio
          = (endIdx - idx) / tratio - 1 := by
        rw [show endIdx - (idx + tratio) = (endIdx - idx) - tratio by ring,
          sub_div, div_self ht.ne']
      rw [harg, Int.ceil_sub_one, hceil]
      omega
    rw [cursorLoop, if_pos hguard]
    obtain ⟨hidx, hn⟩ := ih (idx + tratio) (n + 1) hnext
    constructor
    · rw [hidx]
      push_cast
      ring
    · rw [hn]
      omega

/-- The steady-state cursor invariant of the fixed-in driver: established by
every `process` call that starts before the loop bound, in particular every
call from the second one on (and already the first when
`chunk_size > sinc_len/2 + 1`). -/
def C1Inv (s : SincFixedIn) : Prop :=
  -((s.sinc_len : ℚ) + 1) ≤ s.last_index
  ∧ s.last_index < -((s.sinc_len : ℚ) + 1) + 1 / s.resample_ratio

/-- C1 (amended): under the steady-state cursor invariant `C1Inv` — which
holds from the second call on, and which the second conjunct shows is
established by every call starting before the loop bound — each active
channel's output length lies in `[⌊chunk·r⌋ - 2, ⌈chunk·r⌉ + 2]`.  (On the
very first chunk after construction the cursor still sits at `-sinc_len/2`,
the loop bound is `chunk - sinc_len - 1`, and the length is the smaller
`⌈(chunk - sinc_len/2 - 1)·r⌉`; see the counterexample.) -/
theorem C1_fixedin_length_steady (s : SincFixedIn) (ws : List (List ℚ))
    (j : ℕ) (hr : 0 < s.resample_ratio)
    (hch : 1 / s.resample_ratio ≤ (s.chunk_size : ℚ))
    (hbuf : s.buffer.length = s.nbr_channels)
    (h1 : ws.length = s.nbr_channels)
    (h2 : ∀ w ∈ ws, w ≠ [] → w.length = s.chunk_size)
    (hj : ws.getD j [] ≠ []) :
    (C1Inv s →
      ∀ outs, (s.process ws).2 = .ok outs →
        ((⌊(s.chunk_size : ℚ) * s.resample_ratio⌋ - 2 : ℤ)
            ≤ ((outs.getD j []).length : ℤ)
          ∧ ((outs.getD j []).length : ℤ)
            ≤ ⌈(s.chunk_size : ℚ) * s.resample_ratio⌉ + 2))
    ∧ (s.last_index < (s.chunk_size : ℚ) - ((s.sinc_len : ℚ) + 1) →
        C1Inv (s.process ws).1) := by
  have ht : (0 : ℚ) < 1 / s.resample_ratio := by positivity
  have hfuel_def : niters ((s.chunk_size : ℚ) - ((s.sinc_len : ℚ) + 1))
      s.last_index (1 / s.resample_ratio)
      = (Int.ceil ((((s.chunk_size : ℚ) - ((s.sinc_len : ℚ) + 1))
          - s.last_index) / (1 / s.resample_ratio))).toNat := by
    rw [niters, if_pos ht]
  have hx_eq : (((s.chunk_size : ℚ) - ((s.sinc_len : ℚ) + 1)) - s.last_index)
      / (1 / s.resample_ratio)
      = (((s.chunk_size : ℚ) - ((s.sinc_len : ℚ) + 1)) - s.last_index)
        * s.resample_ratio := by rw [one_div, div_inv_eq_mul]
  constructor
  · intro hinv outs houts
    rw [processFI_valid s ws h1 h2] at houts
    have hmap := processFICore_out_getD s ws j h1 hbuf
    rw [houts] at hmap
    simp only [Except.map] at hmap
    have hout_eq := Except.ok.inj hmap
    have hjlt : j < ws.length := getD_ne_nil_lt hj
    have hjused : j ∈ usedChannels ws := mem_usedChannels.mpr ⟨hjlt, hj⟩
    rw [hout_eq, if_pos hjused, List.length_take, chanLoopFI_length,
      List.length_replicate,
      (cursorLoop_count _ _ ht _ s.last_index 0 hfuel_def).2]
    -- pure arithmetic on the iteration count and the capacity
    have hx_pos : (0 : ℚ)
        < (((s.chunk_size : ℚ) - ((s.sinc_len : ℚ) + 1)) - s.last_index)
          / (1 / s.resample_ratio) := by
      apply div_pos ?_ ht
      have := hinv.2
      have hle : -((s.sinc_len : ℚ) + 1) + 1 / s.resample_ratio
          ≤ (s.chunk_size : ℚ) - ((s.sinc_len : ℚ) + 1) := by linarith
      linarith
    have hceil_nonneg : (0 : ℤ)
        ≤ Int.ceil ((((s.chunk_size : ℚ) - ((s.sinc_len : ℚ) + 1))
            - s.last_index) / (1 / s.resample_ratio)) :=
      (Int.ceil_pos.mpr hx_pos).le
    have hfuelZ : ((niters ((s.chunk_size : ℚ) - ((s.sinc_len : ℚ) + 1))
        s.last_index (1 / s.resample_ratio) : ℕ) : ℤ)
        = Int.ceil ((((s.chunk_size : ℚ) - ((s.sinc_len : ℚ) + 1))
            - s.last_index) / (1 / s.resample_ratio)) := by
      rw [hfuel_def]
      exact Int.toNat_of_nonneg hceil_nonneg
    have hupper : Int.ceil ((((s.chunk_size : ℚ) - ((s.sinc_len : ℚ) + 1))
        - s.last_index) / (1 / s.resample_ratio))
        ≤ ⌈(s.chunk_size : ℚ) * s.resample_ratio⌉ := by
      apply Int.ceil_le_ceil
      rw [hx_eq]
      have hle : ((s.chunk_size : ℚ) - ((s.sinc_len : ℚ) + 1)) - s.last_index
          ≤ (s.chunk_size : ℚ) := by
        have := hinv.1
        linarith
      exact mul_le_mul_of_nonneg_right hle hr.le
    have hlower : ⌈(s.chunk_size : ℚ) * s.resample_ratio⌉ - 1
        ≤ Int.ceil ((((s.chunk_size : ℚ) - ((s.sinc_len : ℚ) + 1))
            - s.last_index) / (1 / s.resample_ratio)) := by
      rw [← Int.ceil_sub_one]
      apply Int.ceil_le_ceil
      rw [hx_eq]
      have hgt : (s.chunk_size : ℚ) - 1 / s.resample_ratio
          < ((s.chunk_size : ℚ) - ((s.sinc_len : ℚ) + 1)) - s.last_index := by
        have := hinv.2
        linarith
      have := mul_lt_mul_of_pos_right hgt hr
      have hcancel : (1 / s.resample_ratio) * s.resample_ratio = 1 :=
        one_div_mul_cancel hr.ne'
      nlinarith
    have hflceil : ⌊(s.chunk_size : ℚ) * s.resample_ratio⌋
        ≤ ⌈(s.chunk_size : ℚ) * s.resample_ratio⌉ := Int.floor_le_ceil _
    have hceilfl : ⌈(s.chunk_size : ℚ) * s.resample_ratio⌉
        ≤ ⌊(s.chunk_size : ℚ) * s.resample_ratio⌋ + 1 :=
      Int.ceil_le_floor_add_one _
    have hfl10 : ⌊(s.chunk_size : ℚ) * s.resample_ratio + 10⌋
        = ⌊(s.chunk_size : ℚ) * s.resample_ratio⌋ + 10 := by
      rw [show (10 : ℚ) = ((10 : ℤ) : ℚ) by norm_num, Int.floor_add_int]
    have hcr_nonneg : (0 : ℚ) ≤ (s.chunk_size : ℚ) * s.resample_ratio := by
      positivity
    have hcapZ : (((Int.floor ((s.chunk_size : ℚ) * s.resample_ratio + 10)).toNat : ℕ) : ℤ)
        = ⌊(s.chunk_size : ℚ) * s.resample_ratio + 10⌋ := by
      apply Int.toNat_of_nonneg
      rw [hfl10]
      have : (0 : ℤ) ≤ ⌊(s.chunk_size : ℚ) * s.resample_ratio⌋ :=
        Int.floor_nonneg.mpr hcr_nonneg
      omega
    rw [Nat.zero_add]
    constructor
    · rw [Nat.cast_min]
      rw [hfuelZ, hcapZ, hfl10]
      omega
    · rw [Nat.cast_min]
      rw [hfuelZ, hcapZ, hfl10]
      omega
  · intro hlt
    rw [processFI_valid s ws h1 h2]
    have hfst : (s.processCore ws).1.last_index
        = (cursorLoop ((s.chunk_size : ℚ) - ((s.sinc_len : ℚ) + 1))
            (1 / s.resample_ratio)
            (niters ((s.chunk_size : ℚ) - ((s.sinc_len : ℚ) + 1)) s.last_index
              (1 / s.resample_ratio))
            s.last_index 0).1 - (s.chunk_size : ℚ) :=
      congrArg (fun y : ℚ => y - (s.chunk_size : ℚ))
        (congrArg Prod.fst (sincLoopFI_cursor _ _ _ _ _ _ _ _ _ _ _ _))
    have hcc := (cursorLoop_count _ _ ht _ s.last_index 0 hfuel_def).1
    have hx_pos : (0 : ℚ)
        < (((s.chunk_size : ℚ) - ((s.sinc_len : ℚ) + 1)) - s.last_index)
          / (1 / s.resample_ratio) := by
      apply div_pos (by linarith) ht
    have hceil_nonneg : (0 : ℤ)
        ≤ Int.ceil ((((s.chunk_size : ℚ) - ((s.sinc_len : ℚ) + 1))
            - s.last_index) / (1 / s.resample_ratio)) :=
      (Int.ceil_pos.mpr hx_pos).le
    have hfuelQ : ((niters ((s.chunk_size : ℚ) - ((s.sinc_len : ℚ) + 1))
        s.last_index (1 / s.resample_ratio) : ℕ) : ℚ)
        = ((Int.ceil ((((s.chunk_size : ℚ) - ((s.sinc_len : ℚ) + 1))
            - s.last_index) / (1 / s.resample_ratio)) : ℤ) : ℚ) := by
      rw [hfuel_def]
      exact_mod_cast congrArg (fun z : ℤ => (z : ℚ))
        (Int.toNat_of_nonneg hceil_nonneg)
    have hxle : (((s.chunk_size : ℚ) - ((s.sinc_len : ℚ) + 1)) - s.last_index)
        / (1 / s.resample_ratio)
        ≤ ((Int.ceil ((((s.chunk_size : ℚ) - ((s.sinc_len : ℚ) + 1))
            - s.last_index) / (1 / s.resample_ratio)) : ℤ) : ℚ) :=
      Int.le_ceil _
    have hxgt : ((Int.ceil ((((s.chunk_size : ℚ) - ((s.sinc_len : ℚ) + 1))
        - s.last_index) / (1 / s.resample_ratio)) : ℤ) : ℚ)
        < (((s.chunk_size : ℚ) - ((s.sinc_len : ℚ) + 1)) - s.last_index)
          / (1 / s.resample_ratio) + 1 :=
      Int.ceil_lt_add_one _
    have hmul : ((((s.chunk_size : ℚ) - ((s.sinc_len : ℚ) + 1)) - s.last_index)
        / (1 / s.resample_ratio)) * (1 / s.resample_ratio)
        = (((s.chunk_size : ℚ) - ((s.sinc_len : ℚ) + 1)) - s.last_index) :=
      div_mul_cancel₀ _ ht.ne'
    have hge2 : (s.chunk_size : ℚ) - ((s.sinc_len : ℚ) + 1)
        ≤ s.last_index
          + (niters ((s.chunk_size : ℚ) - ((s.sinc_len : ℚ) + 1)) s.last_index
              (1 / s.resample_ratio) : ℕ) * (1 / s.resample_ratio) := by
      rw [hfuelQ]
      nlinarith
    have hlt2 : s.last_index
        + (niters ((s.chunk_size : ℚ) - ((s.sinc_len : ℚ) + 1)) s.last_index
            (1 / s.resample_ratio) : ℕ) * (1 / s.resample_ratio)
        < (s.chunk_size : ℚ) - ((s.sinc_len : ℚ) + 1) + 1 / s.resample_ratio := by
      rw [hfuelQ]
      nlinarith
    have hsl : (s.processCore ws).1.sinc_len = s.sinc_len := rfl
    have hratio : (s.processCore ws).1.resample_ratio = s.resample_ratio := rfl
    constructor
    · rw [hsl, hfst, hcc]
      linarith
    · rw [hsl, hratio, hfst, hcc]
      linarith

/-- `exFI` in its steady state: the cursor invariant `C1Inv` holds
(`last_index = -9 = -(sinc_len+1)`). -/
def exFIs : SincFixedIn := { exFI with last_index := -9 }

theorem C1_fixedin_length_steady_witness :
    (0 < exFIs.resample_ratio)
    ∧ (1 / exFIs.resample_ratio ≤ (exFIs.chunk_size : ℚ))
    ∧ (exFIs.buffer.length = exFIs.nbr_channels)
    ∧ ([List.replicate 16 (0 : ℚ)].length = exFIs.nbr_channels)
    ∧ (∀ w ∈ [List.replicate 16 (0 : ℚ)], w ≠ [] →
        w.length = exFIs.chunk_size)
    ∧ ([List.replicate 16 (0 : ℚ)].getD 0 [] ≠ [])
    ∧ ((C1Inv exFIs →
        ∀ outs, (exFIs.process [List.replicate 16 (0 : ℚ)]).2 = .ok outs →
          ((⌊(exFIs.chunk_size : ℚ) * exFIs.resample_ratio⌋ - 2 : ℤ)
              ≤ ((outs.getD 0 []).length : ℤ)
            ∧ ((outs.getD 0 []).length : ℤ)
              ≤ ⌈(exFIs.chunk_size : ℚ) * exFIs.resample_ratio⌉ + 2))
      ∧ (exFIs.last_index
            < (exFIs.chunk_size : ℚ) - ((exFIs.sinc_len : ℚ) + 1) →
          C1Inv (exFIs.process [List.replicate 16 (0 : ℚ)]).1)) :=
  ⟨by norm_num [exFIs, exFI, SincFixedIn.new],
   by norm_num [exFIs, exFI, SincFixedIn.new],
   by decide, by decide, by decide, by decide,
   C1_fixedin_length_steady exFIs [List.replicate 16 (0 : ℚ)] 0
     (by norm_num [exFIs, exFI, SincFixedIn.new])
     (by norm_num [exFIs, exFI, SincFixedIn.new])
     (by decide) (by decide) (by decide) (by decide)⟩

/-- C1 counterexample: the very first chunk after construction violates the
claimed interval.  `exFI` (ratio 1, `chunk_size = 16`, `sinc_len = 8`) starts
at `last_index = -4`; its first valid call produces
`⌈(16 - 9 + 4)·1⌉ = 11` frames, but the claimed interval is
`[⌊16·1⌋ - 2, ⌈16·1⌉ + 2] = [14, 18]`. -/
theorem C1_first_chunk_cex :
    (exFI.process [List.replicate 16 (0 : ℚ)]).2.map
        (fun o => ((o.getD 0 []).length : ℤ)) = .ok 11
    ∧ ¬((⌊(exFI.chunk_size : ℚ) * exFI.resample_ratio⌋ - 2 : ℤ) ≤ 11) := by
  constructor
  · rw [processFI_valid exFI _ (by decide) (by decide)]
    have hcomp : ∀ (e : Except String (List (List ℚ))),
        e.map (fun o => ((o.getD 0 []).length : ℤ))
          = (e.map (fun o => o.getD 0 [])).map (fun l => ((l.length : ℤ))) := by
      intro e
      cases e <;> rfl
    rw [hcomp, processFICore_out_getD exFI [List.replicate 16 (0 : ℚ)] 0
      (by decide) (by decide)]
    simp only [Except.map]
    congr 1
    rw [if_pos (by decide), List.length_take, chanLoopFI_length,
      List.length_replicate]
    have hfd : niters ((exFI.chunk_size : ℚ) - ((exFI.sinc_len : ℚ) + 1))
        exFI.last_index (1 / exFI.resample_ratio) = 11 := by
      rw [niters, if_pos (by norm_num [exFI, SincFixedIn.new])]
      norm_num [exFI, SincFixedIn.new]
      rfl
    rw [(cursorLoop_count _ _ (by norm_num [exFI, SincFixedIn.new]) _ _ 0
      (by rw [niters, if_pos (by norm_num [exFI, SincFixedIn.new])])).2, hfd]
    norm_num [exFI, SincFixedIn.new]
  · norm_num [exFI, SincFixedIn.new]
